import Mathlib

/-!
Verification of the optimal-meeting-point solver
(`optimal_meeting_point.py`) against its design specification.

The solver computes, for a rectangular integer grid (marker 1 = house,
0 = empty land, other values = obstacle territory), the minimum total
distance from all houses to a single meeting point placed on an empty
cell, returning -1 when no valid meeting point exists.  Two engines are
implemented: a separable prefix-sum fast path for pure 0/1 grids and a
per-house breadth-first-search fallback.

This file gives a shallow embedding of the Python source: pure helper
functions become Lean functions, the mutable arrays of the BFS become a
state record threaded through an explicitly fueled loop (the fuel
`4*m*n + 2` strictly dominates the loop measure, as proved below, so the
fueled loop computes exactly the Python while-loop).
-/

namespace OMP

/-- Grids are lists of rows of integer markers, as in the Python source. -/
abbrev Grid := List (List Int)

/-- Array access `grid[i][j]`.  The source only ever indexes inside the
bounds `i < m`, `j < n`, which every use below respects; out-of-range
access defaults to 0. -/
def cell (g : Grid) (i j : Nat) : Int :=
  (g.getD i []).getD j 0

/-- Line 35 of the source: `total_houses = sum(cell for row in grid for cell in row)`.
Note that this is the sum of all marker values, not the number of 1-cells. -/
def total_houses (g : Grid) : Int :=
  (g.map List.sum).sum

/-- Line 39: `houses = [(i, j) for i in range(m) for j in range(n) if grid[i][j] == 1]`. -/
def housesOf (g : Grid) (m n : Nat) : List (Nat × Nat) :=
  (List.range m).flatMap fun i =>
    ((List.range n).filter fun j => cell g i j == 1).map fun j => (i, j)

/-- Lines 43-50: the classification scan.  `all` short-circuits exactly like
the `break` in the source. -/
def has_only_01 (g : Grid) : Bool :=
  g.all fun row => row.all fun v => v == 0 || v == 1

/-- The `min_cost = min(min_cost, v)` idiom where `min_cost` starts at
`float('inf')`; `none` plays the role of infinity. -/
def minOpt (acc : Option Int) (v : Int) : Option Int :=
  match acc with
  | none => some v
  | some w => some (min w v)

/-- The nested `for i in range(m): for j in range(n):` cell enumeration,
flattened in iteration order. -/
def cellList (m n : Nat) : List (Nat × Nat) :=
  (List.range m).flatMap fun i => (List.range n).map fun j => (i, j)

/-- The final scanning loops of both engines: minimise `f` over the cells
satisfying `p` (lines 80-84 and 146-150 of the source). -/
def scanMin (cells : List (Nat × Nat)) (p : Nat × Nat → Bool) (f : Nat × Nat → Int) :
    Option Int :=
  cells.foldl (fun acc c => if p c then minOpt acc (f c) else acc) none

/-- `return min_cost if min_cost != float('inf') else -1`. -/
def finishMin : Option Int → Int
  | none => -1
  | some v => v

/-- Lines 93-97 (and 54-58): one pass over the house list incrementing the
per-row and per-column house counters. -/
def houseCounts (houses : List (Nat × Nat)) : (Nat → Int) × (Nat → Int) :=
  houses.foldl
    (fun p h =>
      (fun r => if r = h.1 then p.1 r + 1 else p.1 r,
       fun c => if c = h.2 then p.2 c + 1 else p.2 c))
    (fun _ => 0, fun _ => 0)

/-- The running `prefix` variable of the cost loops: cumulative counter
value over indices `0..r-1`. -/
def prefixCount (cnt : Nat → Int) : Nat → Int
  | 0 => 0
  | r + 1 => prefixCount cnt r + cnt r

/-- Lines 99-112 (and 61-77): the incremental cost array.  Index 0 is the
direct sum `Σ cnt[i]·i`; each further index applies the relation
`cost[r] = cost[r-1] + (2·prefix - total)`.  The row and column loops of
the source are textually parallel, so one definition serves both. -/
def costArr (cnt : Nat → Int) (dim : Nat) (total : Int) : Nat → Int
  | 0 => ((List.range dim).map fun i => cnt i * (i : Int)).sum
  | r + 1 => costArr cnt dim total r + (2 * prefixCount cnt (r + 1) - total)

/-- Lines 91-119: `_fast_total_distance`, the separable engine.  Lines
52-85 of `min_total_distance` are the verbatim inline copy of this body,
so the solver's fast branch is embedded through this definition. -/
def fast_total_distance (g : Grid) (houses : List (Nat × Nat)) (m n : Nat)
    (total : Int) : Int :=
  let counts := houseCounts houses
  let cost_row := costArr counts.1 m total
  let cost_col := costArr counts.2 n total
  finishMin
    (scanMin (cellList m n) (fun c => cell g c.1 c.2 == 0)
      (fun c => cost_row c.1 + cost_col c.2))

/-- Mutable state of the BFS engine: the (read-only) grid together with
the `dist`, `reach` and `visited_mark` arrays of lines 124-127. -/
structure BfsState where
  grid : Grid
  dist : Nat × Nat → Int
  reach : Nat × Nat → Int
  visited : Nat × Nat → Nat

/-- Line 126: `directions = [(-1,0),(1,0),(0,-1),(0,1)]`. -/
def directions : List (Int × Int) :=
  [(-1, 0), (1, 0), (0, -1), (0, 1)]

/-- Lines 135-144, the body of the `for dx, dy in directions` loop while
processing the dequeued entry `(x, y, d)`: bounds check, visited check,
obstacle check (`grid[nx][ny] != 2`), marking, accumulation for empty
cells, and enqueueing. -/
def tryVisit (m n visit_id x y d : Nat)
    (sq : BfsState × List (Nat × Nat × Nat)) (dir : Int × Int) :
    BfsState × List (Nat × Nat × Nat) :=
  let s := sq.1
  let nxz : Int := (x : Int) + dir.1
  let nyz : Int := (y : Int) + dir.2
  if 0 ≤ nxz ∧ nxz < (m : Int) ∧ 0 ≤ nyz ∧ nyz < (n : Int) then
    let nx := nxz.toNat
    let ny := nyz.toNat
    if s.visited (nx, ny) ≠ visit_id ∧ cell s.grid nx ny ≠ 2 then
      let s1 : BfsState :=
        { s with visited := fun c => if c = (nx, ny) then visit_id else s.visited c }
      let s2 : BfsState :=
        if cell s.grid nx ny = 0 then
          { s1 with
            dist := fun c => if c = (nx, ny) then s1.dist c + ((d : Int) + 1) else s1.dist c,
            reach := fun c => if c = (nx, ny) then s1.reach c + 1 else s1.reach c }
        else s1
      (s2, sq.2 ++ [(nx, ny, d + 1)])
    else sq
  else sq

/-- Lines 133-144: `while q:` with FIFO pop from the left.  The loop is
given explicit fuel; `4*m*n + 2` units are proved sufficient below, so
the fueled loop is extensionally the unbounded while-loop of the source. -/
def bfsLoop (m n visit_id : Nat) :
    Nat → BfsState × List (Nat × Nat × Nat) → BfsState
  | 0, sq => sq.1
  | fuel + 1, sq =>
    match sq.2 with
    | [] => sq.1
    | (x, y, d) :: rest =>
      bfsLoop m n visit_id fuel (directions.foldl (tryVisit m n visit_id x y d) (sq.1, rest))

/-- Lines 129-145: one iteration of the `for i, j in houses` loop: mark the
house with the current traversal id, run its BFS, increment the id. -/
def bfsHouse (m n : Nat) (sv : BfsState × Nat) (h : Nat × Nat) : BfsState × Nat :=
  let s := sv.1
  let visit_id := sv.2
  let s0 : BfsState :=
    { s with visited := fun c => if c = h then visit_id else s.visited c }
  (bfsLoop m n visit_id (4 * (m * n) + 2) (s0, [(h.1, h.2, 0)]), visit_id + 1)

/-- Lines 124-145: fresh zeroed arrays, then the per-house traversals with
the monotonically increasing `visit_id` starting at 1. -/
def bfsRun (g : Grid) (houses : List (Nat × Nat)) (m n : Nat) : BfsState :=
  (houses.foldl (bfsHouse m n)
    ({ grid := g, dist := fun _ => 0, reach := fun _ => 0, visited := fun _ => 0 }, 1)).1

/-- Lines 122-151: `_bfs_total_distance`, the traversal engine. -/
def bfs_total_distance (g : Grid) (houses : List (Nat × Nat)) (m n : Nat)
    (total : Int) : Int :=
  let s := bfsRun g houses m n
  finishMin
    (scanMin (cellList m n)
      (fun c => cell g c.1 c.2 == 0 && s.reach c == total)
      (fun c => s.dist c))

/-- Lines 31-88: the public solver `min_total_distance`. -/
def min_total_distance (g : Grid) : Int :=
  if g = [] ∨ g.headD [] = [] then -1
  else
    let m := g.length
    let n := (g.headD []).length
    let total := total_houses g
    if total = 0 then -1
    else
      let houses := housesOf g m n
      if has_only_01 g then fast_total_distance g houses m n total
      else bfs_total_distance g houses m n total

/-- Manhattan distance between two cells; the specification's shortest-path
distance on obstacle-free grids.  Statement-side notion used to express
correctness of the engines. -/
def mdist (a b : Nat × Nat) : Nat :=
  Nat.dist a.1 b.1 + Nat.dist a.2 b.2

/-- In-bounds predicate for cells, matching the `0<=nx<m and 0<=ny<n`
bounds check. -/
abbrev inb (m n : Nat) (c : Nat × Nat) : Prop :=
  c.1 < m ∧ c.2 < n

/-- Cell of a queue entry `(x, y, d)`. -/
def qcell (e : Nat × Nat × Nat) : Nat × Nat :=
  (e.1, e.2.1)

/-- Distance tag of a queue entry `(x, y, d)`. -/
def qd (e : Nat × Nat × Nat) : Nat :=
  e.2.2

/-- The neighbour cell reached from `(x, y)` in direction `dir`, when the
bounds check of line 138 passes. -/
def targ (m n x y : Nat) (dir : Int × Int) : Option (Nat × Nat) :=
  if 0 ≤ (x : Int) + dir.1 ∧ (x : Int) + dir.1 < (m : Int) ∧
      0 ≤ (y : Int) + dir.2 ∧ (y : Int) + dir.2 < (n : Int) then
    some (((x : Int) + dir.1).toNat, ((y : Int) + dir.2).toNat)
  else none

/-- A cell is newly visited while processing the direction list from
`(x, y)` when some direction reaches it in bounds, it is not yet marked
with the current traversal id, and its marker is not the obstacle 2. -/
def Newly (m n id : Nat) (s : BfsState) (x y : Nat) (dirs : List (Int × Int))
    (c : Nat × Nat) : Prop :=
  (∃ dir ∈ dirs, targ m n x y dir = some c) ∧ s.visited c ≠ id ∧
    cell s.grid c.1 c.2 ≠ 2

/-- Extensional description of the direction loop processing the dequeued
entry `(x, y, d)`: the newly visited cells are marked and accumulated, and
exactly they are appended to the queue with distance d + 1. -/
structure FoldOut (m n id d : Nat) (s : BfsState) (x y : Nat)
    (dirs : List (Int × Int)) (q : List (Nat × Nat × Nat))
    (out : BfsState × List (Nat × Nat × Nat)) : Prop where
  grid_eq : out.1.grid = s.grid
  qapp : ∃ A, out.2 = q ++ A
    ∧ (∀ e ∈ A, qd e = d + 1 ∧ Newly m n id s x y dirs (qcell e))
    ∧ (∀ c, Newly m n id s x y dirs c → ∃ e ∈ A, qcell e = c)
    ∧ (A.map qcell).Nodup
  vis_new : ∀ c, Newly m n id s x y dirs c → out.1.visited c = id
  vis_old : ∀ c, ¬ Newly m n id s x y dirs c → out.1.visited c = s.visited c
  dist_new : ∀ c, Newly m n id s x y dirs c → cell s.grid c.1 c.2 = 0 →
    out.1.dist c = s.dist c + ((d : Int) + 1)
  dist_old : ∀ c, ¬(Newly m n id s x y dirs c ∧ cell s.grid c.1 c.2 = 0) →
    out.1.dist c = s.dist c
  reach_new : ∀ c, Newly m n id s x y dirs c → cell s.grid c.1 c.2 = 0 →
    out.1.reach c = s.reach c + 1
  reach_old : ∀ c, ¬(Newly m n id s x y dirs c ∧ cell s.grid c.1 c.2 = 0) →
    out.1.reach c = s.reach c

/-- Number of in-bounds cells not yet marked with the current traversal id. -/
def unvisitedCard (m n id : Nat) (s : BfsState) : Nat :=
  (((Finset.range m) ×ˢ (Finset.range n)).filter fun c => s.visited c ≠ id).card

/-- Loop invariant of one house's breadth-first traversal on an
obstacle-free grid: the queue splits into the current frontier at
Manhattan distance D and the next frontier at distance D + 1, the visited
region is exactly the ball of radius D plus the next frontier, every
unvisited cell of the next sphere is adjacent to a pending frontier entry,
and the dist and reach arrays hold the accumulated contributions of the
visited empty cells. -/
structure LoopInv (g : Grid) (m n id : Nat) (h : Nat × Nat)
    (dist0 reach0 : Nat × Nat → Int) (vis0 : Nat × Nat → Nat)
    (s : BfsState) (q : List (Nat × Nat × Nat)) (D : Nat)
    (q1 q2 : List (Nat × Nat × Nat)) : Prop where
  grid_eq : s.grid = g
  qsplit : q = q1 ++ q2
  q1_prop : ∀ e ∈ q1, qd e = D ∧ mdist h (qcell e) = D ∧ inb m n (qcell e) ∧
    s.visited (qcell e) = id
  q2_prop : ∀ e ∈ q2, qd e = D + 1 ∧ mdist h (qcell e) = D + 1 ∧ inb m n (qcell e) ∧
    s.visited (qcell e) = id
  ball_vis : ∀ c, inb m n c → mdist h c ≤ D → s.visited c = id
  vis_ball : ∀ c, inb m n c → s.visited c = id → mdist h c ≤ D ∨ ∃ e ∈ q2, qcell e = c
  frontier : ∀ c, inb m n c → mdist h c = D + 1 → s.visited c ≠ id →
    ∃ e ∈ q1, mdist (qcell e) c = 1
  vis_out : ∀ c, ¬ inb m n c → s.visited c = vis0 c
  vis_old : ∀ c, s.visited c ≠ id → s.visited c = vis0 c
  dist_acc : ∀ c, s.dist c = dist0 c +
    (if inb m n c ∧ cell g c.1 c.2 = 0 ∧ s.visited c = id then ((mdist h c : Nat) : Int) else 0)
  reach_acc : ∀ c, s.reach c = reach0 c +
    (if inb m n c ∧ cell g c.1 c.2 = 0 ∧ s.visited c = id then 1 else 0)

/-- Net effect of one house's completed traversal on an obstacle-free
grid: every in-bounds cell is visited, and every in-bounds empty cell has
received the Manhattan distance from the house in dist and one unit of
reach. -/
structure RoundPost (g : Grid) (m n id : Nat) (h : Nat × Nat)
    (dist0 reach0 : Nat × Nat → Int) (vis0 : Nat × Nat → Nat)
    (s : BfsState) : Prop where
  grid_eq : s.grid = g
  vis_all : ∀ c, inb m n c → s.visited c = id
  vis_or : ∀ c, s.visited c = id ∨ s.visited c = vis0 c
  vis_out : ∀ c, ¬ inb m n c → s.visited c = vis0 c
  dist_eq : ∀ c, s.dist c = dist0 c +
    (if inb m n c ∧ cell g c.1 c.2 = 0 then ((mdist h c : Nat) : Int) else 0)
  reach_eq : ∀ c, s.reach c = reach0 c +
    (if inb m n c ∧ cell g c.1 c.2 = 0 then 1 else 0)

theorem listSum_range {M : Type} [AddCommMonoid M] (n : Nat) (f : Nat → M) :
    ((List.range n).map f).sum = ∑ i in Finset.range n, f i := by
  induction n with
  | zero => simp
  | succ k ih =>
    rw [List.range_succ, List.map_append, List.sum_append, Finset.sum_range_succ, ih]
    simp

theorem foldl_minOpt_some (l : List Int) (w : Int) :
    l.foldl minOpt (some w) = some (l.foldl min w) := by
  induction l generalizing w with
  | nil => rfl
  | cons a l ih => simpa [minOpt] using ih (min w a)

theorem foldl_min_le_init (l : List Int) (w : Int) : l.foldl min w ≤ w := by
  induction l generalizing w with
  | nil => exact le_refl w
  | cons a l ih => exact le_trans (ih (min w a)) (min_le_left w a)

theorem foldl_min_le_mem (l : List Int) (w x : Int) (hx : x ∈ l) :
    l.foldl min w ≤ x := by
  induction l generalizing w with
  | nil => cases hx
  | cons a l ih =>
    rw [List.foldl_cons]
    rcases List.mem_cons.1 hx with rfl | hx
    · exact le_trans (foldl_min_le_init l (min w x)) (min_le_right w x)
    · exact ih (min w a) hx

theorem foldl_min_mem (l : List Int) (w : Int) :
    l.foldl min w = w ∨ l.foldl min w ∈ l := by
  induction l generalizing w with
  | nil => exact Or.inl rfl
  | cons a l ih =>
    rcases ih (min w a) with h | h
    · rcases min_cases w a with ⟨hm, _⟩ | ⟨hm, _⟩
      · exact Or.inl (by rw [List.foldl_cons, h, hm])
      · exact Or.inr (by rw [List.foldl_cons, h, hm]; exact List.mem_cons_self a l)
    · exact Or.inr (List.mem_cons_of_mem a h)

theorem scanMin_foldl (cells : List (Nat × Nat)) (p : Nat × Nat → Bool)
    (f : Nat × Nat → Int) (acc : Option Int) :
    cells.foldl (fun acc c => if p c then minOpt acc (f c) else acc) acc
      = ((cells.filter p).map f).foldl minOpt acc := by
  induction cells generalizing acc with
  | nil => rfl
  | cons c cells ih =>
    by_cases hc : p c
    · simp only [List.foldl_cons, List.filter_cons, hc, if_pos, List.map_cons]
      exact ih (minOpt acc (f c))
    · simp only [List.foldl_cons, List.filter_cons, hc, Bool.false_eq_true, if_neg,
        not_false_iff, ite_false]
      exact ih acc

theorem scanMin_eq (cells : List (Nat × Nat)) (p : Nat × Nat → Bool)
    (f : Nat × Nat → Int) :
    scanMin cells p f = ((cells.filter p).map f).foldl minOpt none :=
  scanMin_foldl cells p f none

theorem scanMin_congr (cells : List (Nat × Nat)) (p q : Nat × Nat → Bool)
    (f h : Nat × Nat → Int) (hp : ∀ c ∈ cells, p c = q c)
    (hf : ∀ c ∈ cells, p c = true → f c = h c) :
    scanMin cells p f = scanMin cells q h := by
  rw [scanMin_eq, scanMin_eq]
  have hfil : cells.filter p = cells.filter q := List.filter_congr hp
  have : (cells.filter p).map f = (cells.filter q).map h := by
    rw [← hfil]
    apply List.map_congr_left
    intro c hc
    exact hf c (List.mem_of_mem_filter hc) (List.of_mem_filter hc)
  rw [this]

theorem scanMin_none_iff (cells : List (Nat × Nat)) (p : Nat × Nat → Bool)
    (f : Nat × Nat → Int) :
    scanMin cells p f = none ↔ ∀ c ∈ cells, p c = false := by
  rw [scanMin_eq]
  rcases hfil : cells.filter p with _ | ⟨a, l⟩
  · simp only [List.map_nil, List.foldl_nil, true_iff]
    intro c hc
    by_contra hpc
    have : c ∈ cells.filter p :=
      List.mem_filter.2 ⟨hc, by revert hpc; cases p c <;> simp⟩
    rw [hfil] at this
    cases this
  · rw [List.map_cons, List.foldl_cons]
    simp only [minOpt, foldl_minOpt_some]
    constructor
    · intro h; cases h
    · intro hall
      have ha : a ∈ cells.filter p := by rw [hfil]; exact List.mem_cons_self a l
      have := hall a (List.mem_of_mem_filter ha)
      have := List.of_mem_filter ha
      simp_all

theorem scanMin_some_spec (cells : List (Nat × Nat)) (p : Nat × Nat → Bool)
    (f : Nat × Nat → Int) (v : Int) (h : scanMin cells p f = some v) :
    (∃ c ∈ cells, p c = true ∧ f c = v) ∧ ∀ c ∈ cells, p c = true → v ≤ f c := by
  rw [scanMin_eq] at h
  rcases hfil : cells.filter p with _ | ⟨a, l⟩
  · rw [hfil] at h; cases h
  · rw [hfil, List.map_cons, List.foldl_cons] at h
    simp only [minOpt, foldl_minOpt_some, Option.some_inj] at h
    constructor
    · have hv : v = f a ∨ v ∈ l.map f := by
        rcases foldl_min_mem (l.map f) (f a) with hm | hm
        · exact Or.inl (h ▸ hm)
        · exact Or.inr (h ▸ hm)
      rcases hv with hv | hv
      · have ha : a ∈ cells.filter p := by rw [hfil]; exact List.mem_cons_self a l
        exact ⟨a, List.mem_of_mem_filter ha, List.of_mem_filter ha, hv.symm⟩
      · rcases List.mem_map.1 hv with ⟨c, hcl, hcv⟩
        have hc : c ∈ cells.filter p := by rw [hfil]; exact List.mem_cons_of_mem a hcl
        exact ⟨c, List.mem_of_mem_filter hc, List.of_mem_filter hc, hcv⟩
    · intro c hc hpc
      have hcf : c ∈ cells.filter p := List.mem_filter.2 ⟨hc, hpc⟩
      rw [hfil] at hcf
      rcases List.mem_cons.1 hcf with rfl | hcf
      · exact h ▸ foldl_min_le_init (l.map f) (f c)
      · exact h ▸ foldl_min_le_mem (l.map f) (f a) (f c) (List.mem_map_of_mem f hcf)

theorem houseCounts_foldl (houses : List (Nat × Nat)) :
    ∀ p0 : (Nat → Int) × (Nat → Int), ∀ r c : Nat,
      ((houses.foldl
          (fun (p : (Nat → Int) × (Nat → Int)) (h : Nat × Nat) =>
            (fun r => if r = h.1 then p.1 r + 1 else p.1 r,
             fun c => if c = h.2 then p.2 c + 1 else p.2 c)) p0).1 r
        = p0.1 r + (houses.countP fun h => h.1 == r : Nat)) ∧
      ((houses.foldl
          (fun (p : (Nat → Int) × (Nat → Int)) (h : Nat × Nat) =>
            (fun r => if r = h.1 then p.1 r + 1 else p.1 r,
             fun c => if c = h.2 then p.2 c + 1 else p.2 c)) p0).2 c
        = p0.2 c + (houses.countP fun h => h.2 == c : Nat)) := by
  induction houses with
  | nil => intro p0 r c; simp
  | cons a houses ih =>
    intro p0 r c
    rw [List.foldl_cons, List.countP_cons, List.countP_cons]
    constructor
    · rw [(ih _ r c).1]
      dsimp only
      by_cases hra : r = a.1
      · have hb : (a.1 == r) = true := by simp [hra]
        rw [if_pos hra, hb, if_pos rfl]
        push_cast; ring
      · have hb : ¬ ((a.1 == r) = true) := by simp [Ne.symm hra]
        rw [if_neg hra, if_neg hb, Nat.add_zero]
    · rw [(ih _ r c).2]
      dsimp only
      by_cases hca : c = a.2
      · have hb : (a.2 == c) = true := by simp [hca]
        rw [if_pos hca, hb, if_pos rfl]
        push_cast; ring
      · have hb : ¬ ((a.2 == c) = true) := by simp [Ne.symm hca]
        rw [if_neg hca, if_neg hb, Nat.add_zero]

theorem houseCounts_fst (houses : List (Nat × Nat)) (r : Nat) :
    (houseCounts houses).1 r = (houses.countP fun h => h.1 == r : Nat) := by
  have := (houseCounts_foldl houses (fun _ => 0, fun _ => 0) r 0).1
  simpa [houseCounts] using this

theorem houseCounts_snd (houses : List (Nat × Nat)) (c : Nat) :
    (houseCounts houses).2 c = (houses.countP fun h => h.2 == c : Nat) := by
  have := (houseCounts_foldl houses (fun _ => 0, fun _ => 0) 0 c).2
  simpa [houseCounts] using this

theorem prefixCount_eq (cnt : Nat → Int) (r : Nat) :
    prefixCount cnt r = ∑ i in Finset.range r, cnt i := by
  induction r with
  | zero => simp [prefixCount]
  | succ k ih => rw [prefixCount, ih, Finset.sum_range_succ]

theorem abs_sub_cast_succ (i r : Nat) :
    |(i : Int) - ((r : Int) + 1)| = |(i : Int) - (r : Int)| + (if i ≤ r then 1 else -1) := by
  rcases le_or_lt i r with h | h
  · rw [if_pos h]
    rw [abs_of_nonpos (by omega), abs_of_nonpos (by omega)]
    ring
  · rw [if_neg (not_le.2 h)]
    rw [abs_of_nonneg (by omega), abs_of_nonneg (by omega)]
    ring

theorem costArr_eq (cnt : Nat → Int) (dim : Nat) (total : Int)
    (h0 : ∀ i, dim ≤ i → cnt i = 0)
    (ht : total = ∑ i in Finset.range dim, cnt i) :
    ∀ r, costArr cnt dim total r = ∑ i in Finset.range dim, cnt i * |(i : Int) - (r : Int)| := by
  intro r
  induction r with
  | zero =>
    rw [costArr, listSum_range]
    apply Finset.sum_congr rfl
    intro i _
    rw [Nat.cast_zero, sub_zero, abs_of_nonneg (Int.ofNat_nonneg i)]
  | succ k ih =>
    rw [costArr, ih]
    have hsplit : ∀ i : Nat,
        cnt i * |(i : Int) - ((k + 1 : Nat) : Int)|
          = cnt i * |(i : Int) - (k : Int)| + (if i ≤ k then cnt i else -cnt i) := by
      intro i
      have : ((k + 1 : Nat) : Int) = (k : Int) + 1 := by push_cast; ring
      rw [this, abs_sub_cast_succ, mul_add]
      congr 1
      by_cases h : i ≤ k <;> simp [h]
    rw [Finset.sum_congr rfl fun i _ => hsplit i, Finset.sum_add_distrib]
    congr 1
    have hsum2 : ∑ i in Finset.range dim, (if i ≤ k then cnt i else -cnt i)
        = 2 * ∑ i in Finset.range dim, (if i ≤ k then cnt i else 0)
          - ∑ i in Finset.range dim, cnt i := by
      rw [Finset.mul_sum, ← Finset.sum_sub_distrib]
      apply Finset.sum_congr rfl
      intro i _
      by_cases h : i ≤ k <;> simp [h] <;> ring
    rw [hsum2, ← ht]
    congr 2
    rw [← Finset.sum_filter, prefixCount_eq]
    have hfil : (Finset.range dim).filter (fun i => i ≤ k) = Finset.range (min (k + 1) dim) := by
      ext i
      simp only [Finset.mem_filter, Finset.mem_range, lt_min_iff]
      omega
    rw [hfil]
    rcases le_or_lt (k + 1) dim with h | h
    · rw [min_eq_left h]
    · rw [min_eq_right (le_of_lt h)]
      symm
      apply Finset.sum_subset
      · intro i hi
        simp only [Finset.mem_range] at hi ⊢
        omega
      · intro i _ hi
        simp only [Finset.mem_range, not_lt] at hi
        exact h0 i hi

theorem mem_cellList (m n : Nat) (c : Nat × Nat) :
    c ∈ cellList m n ↔ c.1 < m ∧ c.2 < n := by
  rcases c with ⟨a, b⟩
  simp only [cellList, List.mem_flatMap, List.mem_map, List.mem_range, Prod.mk.injEq]
  constructor
  · rintro ⟨i, hi, j, hj, rfl, rfl⟩
    exact ⟨hi, hj⟩
  · rintro ⟨ha, hb⟩
    exact ⟨a, ha, b, hb, rfl, rfl⟩

theorem mem_housesOf (g : Grid) (m n : Nat) (h : Nat × Nat) :
    h ∈ housesOf g m n ↔ h.1 < m ∧ h.2 < n ∧ cell g h.1 h.2 = 1 := by
  rcases h with ⟨a, b⟩
  simp only [housesOf, List.mem_flatMap, List.mem_map, List.mem_filter, List.mem_range,
    beq_iff_eq, Prod.mk.injEq]
  constructor
  · rintro ⟨i, hi, j, ⟨hj, hc⟩, rfl, rfl⟩
    exact ⟨hi, hj, hc⟩
  · rintro ⟨ha, hb, hc⟩
    exact ⟨a, ha, b, ⟨hb, hc⟩, rfl, rfl⟩

theorem has_only_01_iff (g : Grid) :
    has_only_01 g = true ↔ ∀ row ∈ g, ∀ v ∈ row, v = 0 ∨ v = 1 := by
  simp [has_only_01, List.all_eq_true]

theorem cell_cons_succ (row : List Int) (rest : Grid) (i j : Nat) :
    cell (row :: rest) (i + 1) j = cell rest i j := rfl

theorem rowSum_eq (row : List Int) :
    row.sum = ∑ j in Finset.range row.length, row.getD j 0 := by
  induction row with
  | nil => simp
  | cons a row ih =>
    rw [List.sum_cons, List.length_cons, Finset.sum_range_succ']
    simp only [List.getD_cons_succ, List.getD_cons_zero]
    rw [← ih]
    ring

theorem total_houses_eq (g : Grid) (n : Nat) (hrect : ∀ row ∈ g, row.length = n) :
    total_houses g = ∑ i in Finset.range g.length, ∑ j in Finset.range n, cell g i j := by
  induction g with
  | nil => simp [total_houses]
  | cons row rest ih =>
    have hrow : row.length = n := hrect row (List.mem_cons_self row rest)
    have hrest : ∀ r ∈ rest, r.length = n := fun r hr => hrect r (List.mem_cons_of_mem row hr)
    rw [total_houses, List.map_cons, List.sum_cons, List.length_cons, Finset.sum_range_succ']
    have h0 : ∑ j in Finset.range n, cell (row :: rest) 0 j = row.sum := by
      rw [rowSum_eq row, hrow]
      apply Finset.sum_congr rfl
      intro j _
      rfl
    have hs : ∀ i, ∑ j in Finset.range n, cell (row :: rest) (i + 1) j
        = ∑ j in Finset.range n, cell rest i j := by
      intro i
      apply Finset.sum_congr rfl
      intro j _
      rfl
    rw [Finset.sum_congr rfl fun i _ => hs i, h0, ← total_houses, ih hrest]
    ring

theorem countP_range (n : Nat) (p : Nat → Bool) :
    (List.range n).countP p = ∑ j in Finset.range n, if p j then 1 else 0 := by
  induction n with
  | zero => simp
  | succ k ih =>
    rw [List.range_succ, List.countP_append, Finset.sum_range_succ, ih]
    simp [List.countP_cons]

theorem housesOf_length (g : Grid) (m n : Nat) :
    (housesOf g m n).length
      = ∑ i in Finset.range m, ∑ j in Finset.range n, if cell g i j = 1 then 1 else 0 := by
  rw [housesOf, List.length_flatMap]
  simp only [Function.comp_def]
  rw [listSum_range m fun i =>
    (((List.range n).filter fun j => cell g i j == 1).map fun j => (i, j)).length]
  apply Finset.sum_congr rfl
  intro i _
  rw [List.length_map, ← List.countP_eq_length_filter, countP_range]
  apply Finset.sum_congr rfl
  intro j _
  simp only [beq_iff_eq]

theorem cell01_of_rect (g : Grid) (n : Nat) (hrect : ∀ row ∈ g, row.length = n)
    (h01 : ∀ row ∈ g, ∀ v ∈ row, v = 0 ∨ v = 1) (i j : Nat)
    (hi : i < g.length) (hj : j < n) :
    cell g i j = 0 ∨ cell g i j = 1 := by
  have hrow : g.getD i [] = g[i] := List.getD_eq_getElem g [] hi
  have hmem : g[i] ∈ g := List.getElem_mem hi
  have hlen : g[i].length = n := hrect _ hmem
  have hj2 : j < g[i].length := by rw [hlen]; exact hj
  have hv : (g[i]).getD j 0 = (g[i])[j] := List.getD_eq_getElem _ 0 hj2
  have hvm : (g[i])[j] ∈ g[i] := List.getElem_mem hj2
  rw [cell, hrow, hv]
  exact h01 _ hmem _ hvm

theorem total_houses_eq_card (g : Grid) (n : Nat)
    (hrect : ∀ row ∈ g, row.length = n)
    (h01 : ∀ row ∈ g, ∀ v ∈ row, v = 0 ∨ v = 1) :
    total_houses g = ((housesOf g g.length n).length : Int) := by
  rw [total_houses_eq g n hrect]
  have : ((housesOf g g.length n).length : Int)
      = ((∑ i in Finset.range g.length, ∑ j in Finset.range n,
          if cell g i j = 1 then 1 else 0 : Nat) : Int) := by
    rw [housesOf_length]
  rw [this]
  push_cast
  apply Finset.sum_congr rfl
  intro i hi
  apply Finset.sum_congr rfl
  intro j hj
  rcases cell01_of_rect g n hrect h01 i j (Finset.mem_range.1 hi) (Finset.mem_range.1 hj)
      with h | h <;> rw [h] <;> norm_num

theorem sum_countP_mul (keys : List Nat) (m : Nat) (f : Nat → Int)
    (hk : ∀ k ∈ keys, k < m) :
    ∑ i in Finset.range m, ((keys.countP fun k => k == i : Nat) : Int) * f i
      = (keys.map f).sum := by
  induction keys with
  | nil => simp
  | cons a keys ih =>
    have ha : a < m := hk a (List.mem_cons_self a keys)
    rw [List.map_cons, List.sum_cons,
      ← ih fun k hk2 => hk k (List.mem_cons_of_mem a hk2)]
    have hsplit : ∀ i : Nat,
        (((a :: keys).countP fun k => k == i : Nat) : Int) * f i
          = ((keys.countP fun k => k == i : Nat) : Int) * f i
            + (if i = a then f i else 0) := by
      intro i
      rw [List.countP_cons]
      by_cases hia : i = a
      · have hb : (a == i) = true := by simp [hia]
        rw [hb, if_pos rfl, if_pos hia]
        push_cast
        ring
      · have hb : ¬ ((a == i) = true) := by simp [Ne.symm hia]
        rw [if_neg hb, if_neg hia, Nat.add_zero, add_zero]
    rw [Finset.sum_congr rfl fun i _ => hsplit i, Finset.sum_add_distrib]
    rw [Finset.sum_ite_eq' (Finset.range m) a f, if_pos (Finset.mem_range.2 ha)]
    ring

theorem listSum_map_add (l : List (Nat × Nat)) (f g : Nat × Nat → Int) :
    (l.map fun h => f h + g h).sum = (l.map f).sum + (l.map g).sum := by
  induction l with
  | nil => simp
  | cons a l ih => simp only [List.map_cons, List.sum_cons, ih]; ring

theorem houseCounts_fst_eq_count (houses : List (Nat × Nat)) (r : Nat) :
    (houseCounts houses).1 r
      = (((houses.map Prod.fst).countP fun k => k == r : Nat) : Int) := by
  rw [houseCounts_fst, List.countP_map]
  rfl

theorem houseCounts_snd_eq_count (houses : List (Nat × Nat)) (c : Nat) :
    (houseCounts houses).2 c
      = (((houses.map Prod.snd).countP fun k => k == c : Nat) : Int) := by
  rw [houseCounts_snd, List.countP_map]
  rfl

theorem houseCounts_fst_vanish (houses : List (Nat × Nat)) (m : Nat)
    (hh : ∀ h ∈ houses, h.1 < m) : ∀ r, m ≤ r → (houseCounts houses).1 r = 0 := by
  intro r hr
  rw [houseCounts_fst]
  have : (houses.countP fun h => h.1 == r) = 0 := by
    rw [List.countP_eq_zero]
    intro h hmem
    have := hh h hmem
    simp only [beq_iff_eq]
    omega
  rw [this]
  rfl

theorem houseCounts_snd_vanish (houses : List (Nat × Nat)) (n : Nat)
    (hh : ∀ h ∈ houses, h.2 < n) : ∀ c, n ≤ c → (houseCounts houses).2 c = 0 := by
  intro c hc
  rw [houseCounts_snd]
  have : (houses.countP fun h => h.2 == c) = 0 := by
    rw [List.countP_eq_zero]
    intro h hmem
    have := hh h hmem
    simp only [beq_iff_eq]
    omega
  rw [this]
  rfl

theorem listSum_map_one {α : Type} (l : List α) :
    (l.map fun _ => (1 : Int)).sum = (l.length : Int) := by
  induction l with
  | nil => simp
  | cons a l ih => simp [ih, add_comm]

theorem houseCounts_fst_total (houses : List (Nat × Nat)) (m : Nat)
    (hh : ∀ h ∈ houses, h.1 < m) :
    ∑ i in Finset.range m, (houseCounts houses).1 i = (houses.length : Int) := by
  have hk : ∀ k ∈ houses.map Prod.fst, k < m := by
    intro k hkm
    rcases List.mem_map.1 hkm with ⟨h, hmem, rfl⟩
    exact hh h hmem
  calc ∑ i in Finset.range m, (houseCounts houses).1 i
      = ∑ i in Finset.range m,
          (((houses.map Prod.fst).countP fun k => k == i : Nat) : Int) * (fun _ : Nat => (1 : Int)) i := by
        apply Finset.sum_congr rfl
        intro i _
        rw [houseCounts_fst_eq_count, mul_one]
    _ = ((houses.map Prod.fst).map fun _ => (1 : Int)).sum :=
        sum_countP_mul (houses.map Prod.fst) m (fun _ => 1) hk
    _ = (houses.length : Int) := by rw [listSum_map_one, List.length_map]

theorem houseCounts_snd_total (houses : List (Nat × Nat)) (n : Nat)
    (hh : ∀ h ∈ houses, h.2 < n) :
    ∑ i in Finset.range n, (houseCounts houses).2 i = (houses.length : Int) := by
  have hk : ∀ k ∈ houses.map Prod.snd, k < n := by
    intro k hkm
    rcases List.mem_map.1 hkm with ⟨h, hmem, rfl⟩
    exact hh h hmem
  calc ∑ i in Finset.range n, (houseCounts houses).2 i
      = ∑ i in Finset.range n,
          (((houses.map Prod.snd).countP fun k => k == i : Nat) : Int) * (fun _ : Nat => (1 : Int)) i := by
        apply Finset.sum_congr rfl
        intro i _
        rw [houseCounts_snd_eq_count, mul_one]
    _ = ((houses.map Prod.snd).map fun _ => (1 : Int)).sum :=
        sum_countP_mul (houses.map Prod.snd) n (fun _ => 1) hk
    _ = (houses.length : Int) := by rw [listSum_map_one, List.length_map]

theorem cost_pair_eq (houses : List (Nat × Nat)) (m n : Nat) (total : Int)
    (hhs : ∀ h ∈ houses, h.1 < m ∧ h.2 < n)
    (htot : total = (houses.length : Int)) (i j : Nat) :
    costArr (houseCounts houses).1 m total i + costArr (houseCounts houses).2 n total j
      = (houses.map fun h => |(h.1 : Int) - (i : Int)| + |(h.2 : Int) - (j : Int)|).sum := by
  have hk1 : ∀ k ∈ houses.map Prod.fst, k < m := by
    intro k hkm
    rcases List.mem_map.1 hkm with ⟨h, hmem, rfl⟩
    exact (hhs h hmem).1
  have hk2 : ∀ k ∈ houses.map Prod.snd, k < n := by
    intro k hkm
    rcases List.mem_map.1 hkm with ⟨h, hmem, rfl⟩
    exact (hhs h hmem).2
  have hv1 := houseCounts_fst_vanish houses m fun h hh => (hhs h hh).1
  have hv2 := houseCounts_snd_vanish houses n fun h hh => (hhs h hh).2
  have ht1 : total = ∑ i in Finset.range m, (houseCounts houses).1 i := by
    rw [htot, houseCounts_fst_total houses m fun h hh => (hhs h hh).1]
  have ht2 : total = ∑ i in Finset.range n, (houseCounts houses).2 i := by
    rw [htot, houseCounts_snd_total houses n fun h hh => (hhs h hh).2]
  rw [costArr_eq _ m total hv1 ht1 i, costArr_eq _ n total hv2 ht2 j]
  have hc1 : ∑ r in Finset.range m, (houseCounts houses).1 r * |(r : Int) - (i : Int)|
      = (houses.map fun h => |(h.1 : Int) - (i : Int)|).sum := by
    calc ∑ r in Finset.range m, (houseCounts houses).1 r * |(r : Int) - (i : Int)|
        = ∑ r in Finset.range m,
            (((houses.map Prod.fst).countP fun k => k == r : Nat) : Int) * |(r : Int) - (i : Int)| := by
          apply Finset.sum_congr rfl
          intro r _
          rw [houseCounts_fst_eq_count]
      _ = ((houses.map Prod.fst).map fun (r : Nat) => |(r : Int) - (i : Int)|).sum :=
          sum_countP_mul (houses.map Prod.fst) m (fun (r : Nat) => |(r : Int) - (i : Int)|) hk1
      _ = (houses.map fun h => |(h.1 : Int) - (i : Int)|).sum := by rw [List.map_map]; rfl
  have hc2 : ∑ c in Finset.range n, (houseCounts houses).2 c * |(c : Int) - (j : Int)|
      = (houses.map fun h => |(h.2 : Int) - (j : Int)|).sum := by
    calc ∑ c in Finset.range n, (houseCounts houses).2 c * |(c : Int) - (j : Int)|
        = ∑ c in Finset.range n,
            (((houses.map Prod.snd).countP fun k => k == c : Nat) : Int) * |(c : Int) - (j : Int)| := by
          apply Finset.sum_congr rfl
          intro c _
          rw [houseCounts_snd_eq_count]
      _ = ((houses.map Prod.snd).map fun (c : Nat) => |(c : Int) - (j : Int)|).sum :=
          sum_countP_mul (houses.map Prod.snd) n (fun (c : Nat) => |(c : Int) - (j : Int)|) hk2
      _ = (houses.map fun h => |(h.2 : Int) - (j : Int)|).sum := by rw [List.map_map]; rfl
  rw [hc1, hc2, listSum_map_add]

theorem min_total_distance_fast_eq (g : Grid) (h1 : ¬(g = [] ∨ g.headD [] = []))
    (h2 : total_houses g ≠ 0) (h3 : has_only_01 g = true) :
    min_total_distance g
      = fast_total_distance g (housesOf g g.length (g.headD []).length)
          g.length (g.headD []).length (total_houses g) := by
  simp only [min_total_distance, if_neg h1, if_neg h2, if_pos h3]

theorem min_total_distance_bfs_eq (g : Grid) (h1 : ¬(g = [] ∨ g.headD [] = []))
    (h2 : total_houses g ≠ 0) (h3 : has_only_01 g = false) :
    min_total_distance g
      = bfs_total_distance g (housesOf g g.length (g.headD []).length)
          g.length (g.headD []).length (total_houses g) := by
  have h3f : ¬ (has_only_01 g = true) := by rw [h3]; exact Bool.false_ne_true
  simp only [min_total_distance, if_neg h1, if_neg h2, if_neg h3f]

theorem headD_length (g : Grid) (n : Nat) (hne : g ≠ [])
    (hrect : ∀ row ∈ g, row.length = n) : (g.headD []).length = n := by
  rcases g with _ | ⟨row, rest⟩
  · exact absurd rfl hne
  · exact hrect row (List.mem_cons_self row rest)

/-- Claim C1: the claim asserts that on a traversal-path grid with at least
one house, whenever some empty cell is reachable from every house (house =
cell with marker 1), the solver returns the minimal summed distance over
such cells.  The code instead compares the reach counter against
`total_houses`, which line 35 computes as the sum of all marker values,
not the house cardinality.  On `[[1, 0, 2]]` the only house reaches the
empty cell at distance 1, so the claimed result is 1; the solver returns
-1 because no reach counter can ever equal the marker sum 3.  The second
conjunct shows the traversal engine does return 1 when given the house
cardinality, pinpointing the discrepancy. -/
theorem C1_reach_total_bug_eval :
    min_total_distance [[1, 0, 2]] = -1 ∧
      bfs_total_distance [[1, 0, 2]] (housesOf [[1, 0, 2]] 1 3) 1 3
        ((housesOf [[1, 0, 2]] 1 3).length : Int) = 1 := by
  decide

/-- Claim C2: the claim lists the exact conditions under which the solver
returns -1; the grid `[[1, 0, 0, 2]]` satisfies none of them (it is
non-degenerate, has one house, has empty cells, and every empty cell is
reachable from the house), yet the solver returns -1, again because the
reach counters are compared against the marker sum 3 rather than the
house count 1.  With the house cardinality the traversal engine returns
the genuine cost 1. -/
theorem C2_sentinel_taxonomy_bug_eval :
    min_total_distance [[1, 0, 0, 2]] = -1 ∧
      bfs_total_distance [[1, 0, 0, 2]] (housesOf [[1, 0, 0, 2]] 1 4) 1 4
        ((housesOf [[1, 0, 0, 2]] 1 4).length : Int) = 1 := by
  decide

/-- Claim C4: on a rectangular grid whose markers are all 0 or 1 with at
least one house, the incremental prefix-sum cost arrays of the fast path
satisfy, at every cell (i, j), cost_row[i] + cost_col[j] = total Manhattan
cost from (i, j) to all houses. -/
theorem C4_cost_separability (g : Grid) (n : Nat)
    (hrect : ∀ row ∈ g, row.length = n)
    (h01 : ∀ row ∈ g, ∀ v ∈ row, v = 0 ∨ v = 1)
    (hhouse : housesOf g g.length n ≠ [])
    (i j : Nat) (hi : i < g.length) (hj : j < n) :
    costArr (houseCounts (housesOf g g.length n)).1 g.length (total_houses g) i
      + costArr (houseCounts (housesOf g g.length n)).2 n (total_houses g) j
      = ((housesOf g g.length n).map fun h =>
          |(h.1 : Int) - (i : Int)| + |(h.2 : Int) - (j : Int)|).sum := by
  apply cost_pair_eq
  · intro h hmem
    have hm := (mem_housesOf g g.length n h).1 hmem
    exact ⟨hm.1, hm.2.1⟩
  · exact total_houses_eq_card g n hrect h01

/-- Witness for C4 at the concrete grid [[1, 0]] and cell (0, 1). -/
theorem C4_cost_separability_witness :
    costArr (houseCounts (housesOf [[1, 0]] 1 2)).1 1 (total_houses [[1, 0]]) 0
      + costArr (houseCounts (housesOf [[1, 0]] 1 2)).2 2 (total_houses [[1, 0]]) 1
      = ((housesOf [[1, 0]] 1 2).map fun h =>
          |(h.1 : Int) - (0 : Int)| + |(h.2 : Int) - (1 : Int)|).sum :=
  C4_cost_separability [[1, 0]] 2 (by decide) (by decide) (by decide) 0 1
    (by decide) (by decide)

/-- Claim C5 counterexample: the claim says the traversal engine treats
every marker outside 0 and 1 as an obstacle.  Line 138 of the source only
tests `grid[nx][ny] != 2`.  On `[[1, 3, 0]]` the sole empty cell (0, 2) is
separated from the house by a marker-3 cell; were markers outside 0 and 1
impassable the engine would return -1 (as it does when the middle marker
is 2), but it returns 2, having traversed through the marker-3 cell. -/
theorem C5_obstacle_counterexample :
    bfs_total_distance [[1, 3, 0]] [(0, 0)] 1 3 1 = 2 ∧
      bfs_total_distance [[1, 2, 0]] [(0, 0)] 1 3 1 = -1 := by
  decide

/-- Claim C6 counterexample: the claim scopes dispatch over every
non-degenerate rectangular grid with at least one house.  The grid
`[[1, -1, 2, 0, -2]]` has a house and a marker outside 0 and 1, so the
claim demands dispatch to the traversal engine; but its marker sum is 0,
so the solver returns -1 at the zero-total guard, while the traversal
engine invoked as the dispatch would invoke it returns 0. -/
theorem C6_dispatch_counterexample :
    has_only_01 [[1, -1, 2, 0, -2]] = false ∧
      housesOf [[1, -1, 2, 0, -2]] 1 5 = [(0, 0)] ∧
      min_total_distance [[1, -1, 2, 0, -2]] = -1 ∧
      bfs_total_distance [[1, -1, 2, 0, -2]] (housesOf [[1, -1, 2, 0, -2]] 1 5) 1 5
        (total_houses [[1, -1, 2, 0, -2]]) = 0 := by
  decide

/-- Claim C6 (amended): for every non-degenerate rectangular grid whose
marker sum `total_houses` is nonzero (on 0/1 grids this is exactly having
at least one house), the solver takes the fast separable path iff every
marker is 0 or 1, and otherwise dispatches to the traversal engine; the
classification scan accepts exactly the grids whose markers all lie in
0/1. -/
theorem C6_dispatch_amended (g : Grid) (n : Nat) (hne : g ≠ [])
    (hw : g.headD [] ≠ []) (hrect : ∀ row ∈ g, row.length = n)
    (ht : total_houses g ≠ 0) :
    (has_only_01 g = true ↔ ∀ row ∈ g, ∀ v ∈ row, v = 0 ∨ v = 1) ∧
    (has_only_01 g = true →
      min_total_distance g
        = fast_total_distance g (housesOf g g.length n) g.length n (total_houses g)) ∧
    (has_only_01 g = false →
      min_total_distance g
        = bfs_total_distance g (housesOf g g.length n) g.length n (total_houses g)) := by
  have h1 : ¬(g = [] ∨ g.headD [] = []) := by
    rintro (h | h)
    · exact hne h
    · exact hw h
  have hn : (g.headD []).length = n := headD_length g n hne hrect
  refine ⟨has_only_01_iff g, ?_, ?_⟩
  · intro h3
    rw [min_total_distance_fast_eq g h1 ht h3, hn]
  · intro h3
    rw [min_total_distance_bfs_eq g h1 ht h3, hn]

/-- Witness for the amended C6 at the concrete grid [[1, 2]]. -/
theorem C6_dispatch_amended_witness :
    (has_only_01 [[1, 2]] = true ↔ ∀ row ∈ ([[1, 2]] : Grid), ∀ v ∈ row, v = 0 ∨ v = 1) ∧
    (has_only_01 [[1, 2]] = true →
      min_total_distance [[1, 2]]
        = fast_total_distance [[1, 2]] (housesOf [[1, 2]] ([[1, 2]] : Grid).length 2)
            ([[1, 2]] : Grid).length 2 (total_houses [[1, 2]])) ∧
    (has_only_01 [[1, 2]] = false →
      min_total_distance [[1, 2]]
        = bfs_total_distance [[1, 2]] (housesOf [[1, 2]] ([[1, 2]] : Grid).length 2)
            ([[1, 2]] : Grid).length 2 (total_houses [[1, 2]])) :=
  C6_dispatch_amended [[1, 2]] 2 (by decide) (by decide) (by decide) (by decide)

/-- Claim C7: the empty grid and any grid whose first row is empty are
rejected with -1 at the first guard of the solver, before any further
computation. -/
theorem C7_degenerate_grids :
    min_total_distance [] = -1 ∧ ∀ rest : Grid, min_total_distance ([] :: rest) = -1 := by
  constructor
  · rw [min_total_distance, if_pos (Or.inl rfl)]
  · intro rest
    have h : ([] :: rest : Grid) = [] ∨ (([] :: rest : Grid)).headD [] = [] := Or.inr rfl
    rw [min_total_distance, if_pos h]

/-- Claim C9: the solver is a pure function of the grid value: the
embedding threads no state between calls, so equal grids give equal
results. -/
theorem C9_deterministic (g1 g2 : Grid) (h : g1 = g2) :
    min_total_distance g1 = min_total_distance g2 := by
  rw [h]

/-- Witness for C9 at a concrete grid. -/
theorem C9_deterministic_witness :
    min_total_distance [[1, 0]] = min_total_distance [[1, 0]] :=
  C9_deterministic [[1, 0]] [[1, 0]] rfl

theorem natDist_cast (a b : Nat) :
    ((Nat.dist a b : Nat) : Int) = |(a : Int) - (b : Int)| := by
  rcases le_total a b with h | h
  · rw [Nat.dist_eq_sub_of_le h, abs_of_nonpos (by omega)]
    omega
  · rw [Nat.dist_eq_sub_of_le_right h, abs_of_nonneg (by omega)]
    omega

theorem flatMap_range_nil {A : Type} (m : Nat) (f : Nat → List A)
    (h : ∀ i, i < m → f i = []) : (List.range m).flatMap f = [] := by
  induction m with
  | zero => rfl
  | succ k ih =>
    rw [List.range_succ, List.flatMap_append]
    rw [ih fun i hi => h i (Nat.lt_succ_of_lt hi)]
    simp [h k (Nat.lt_succ_self k)]

theorem flatMap_range_single {A : Type} (m r : Nat) (f : Nat → List A)
    (hr : r < m) (h : ∀ i, i < m → i ≠ r → f i = []) :
    (List.range m).flatMap f = f r := by
  induction m with
  | zero => cases hr
  | succ k ih =>
    rw [List.range_succ, List.flatMap_append]
    rcases Nat.lt_succ_iff_lt_or_eq.1 hr with hrk | rfl
    · rw [ih hrk fun i hi hir => h i (Nat.lt_succ_of_lt hi) hir]
      have : f k = [] := h k (Nat.lt_succ_self k) (by omega)
      simp [this]
    · rw [flatMap_range_nil r f fun i hi => h i (Nat.lt_succ_of_lt hi) (by omega)]
      simp

theorem filter_range_single (n c : Nat) (hc : c < n) :
    (List.range n).filter (fun j => j == c) = [c] := by
  induction n with
  | zero => cases hc
  | succ k ih =>
    rw [List.range_succ, List.filter_append]
    rcases Nat.lt_succ_iff_lt_or_eq.1 hc with hck | rfl
    · rw [ih hck]
      have : (k == c) = false := by simp; omega
      simp [this]
    · have h1 : (List.range c).filter (fun j => j == c) = [] := by
        apply List.filter_eq_nil_iff.2
        intro j hj
        have := List.mem_range.1 hj
        simp
        omega
      rw [h1]
      simp

theorem housesOf_single (g : Grid) (m n r c : Nat) (hr : r < m) (hc : c < n)
    (hcells : ∀ i, i < m → ∀ j, j < n → cell g i j = if (i, j) = (r, c) then 1 else 0) :
    housesOf g m n = [(r, c)] := by
  rw [housesOf]
  rw [flatMap_range_single m r _ hr]
  · have hfil : (List.range n).filter (fun j => cell g r j == 1)
        = (List.range n).filter (fun j => j == c) := by
      apply List.filter_congr
      intro j hj
      have hjn := List.mem_range.1 hj
      rw [hcells r hr j hjn]
      by_cases hjc : j = c
      · subst hjc; simp
      · have : ((r, j) = (r, c)) = False := by
          simp only [Prod.mk.injEq, true_and, eq_iff_iff, iff_false]
          exact hjc
        simp [this, hjc]
    rw [hfil, filter_range_single n c hc]
    rfl
  · intro i hi hir
    have : (List.range n).filter (fun j => cell g i j == 1) = [] := by
      apply List.filter_eq_nil_iff.2
      intro j hj
      have hjn := List.mem_range.1 hj
      rw [hcells i hi j hjn]
      have : ((i, j) = (r, c)) = False := by
        simp only [Prod.mk.injEq, eq_iff_iff, iff_false, not_and]
        intro hirc
        exact absurd hirc hir
      simp [this]
    rw [this]
    rfl

theorem rows01_of_cells (g : Grid) (m n r c : Nat) (hm : g.length = m)
    (hrect : ∀ row ∈ g, row.length = n)
    (hcells : ∀ i, i < m → ∀ j, j < n → cell g i j = if (i, j) = (r, c) then 1 else 0) :
    ∀ row ∈ g, ∀ v ∈ row, v = 0 ∨ v = 1 := by
  intro row hrow v hv
  rcases List.mem_iff_getElem.1 hrow with ⟨i, hi, rfl⟩
  rcases List.mem_iff_getElem.1 hv with ⟨j, hj, rfl⟩
  have hjn : j < n := by
    have := hrect _ (List.getElem_mem hi)
    omega
  have hcv : cell g i j = g[i][j] := by
    rw [cell, List.getD_eq_getElem g [] hi, List.getD_eq_getElem _ 0 hj]
  have := hcells i (by omega) j hjn
  rw [hcv] at this
  rw [this]
  by_cases h : (i, j) = (r, c)
  · rw [if_pos h]; right; rfl
  · rw [if_neg h]; left; rfl

/-- Claim C8: a rectangular grid of at least two cells with exactly one
house at (r, c) and empty land everywhere else yields minimum cost 1, and
the fast-path cost arrays take the value 1 at every in-bounds 4-adjacent
cell of the house. -/
theorem C8_single_house (g : Grid) (m n r c : Nat) (hm : g.length = m)
    (hrect : ∀ row ∈ g, row.length = n) (hr : r < m) (hc : c < n)
    (hsize : 2 ≤ m * n)
    (hcells : ∀ i, i < m → ∀ j, j < n → cell g i j = if (i, j) = (r, c) then 1 else 0) :
    min_total_distance g = 1 ∧
      ∀ i j, i < m → j < n → mdist (r, c) (i, j) = 1 →
        costArr (houseCounts (housesOf g m n)).1 m (total_houses g) i
          + costArr (houseCounts (housesOf g m n)).2 n (total_houses g) j = 1 := by
  subst hm
  have h01 := rows01_of_cells g g.length n r c rfl hrect hcells
  have hhs := housesOf_single g g.length n r c hr hc hcells
  have htot : total_houses g = 1 := by
    rw [total_houses_eq_card g n hrect h01, hhs]
    rfl
  have hcost : ∀ i j : Nat,
      costArr (houseCounts (housesOf g g.length n)).1 g.length (total_houses g) i
        + costArr (houseCounts (housesOf g g.length n)).2 n (total_houses g) j
      = ((Nat.dist r i : Nat) : Int) + ((Nat.dist c j : Nat) : Int) := by
    intro i j
    rw [cost_pair_eq (housesOf g g.length n) g.length n (total_houses g)
      (by
        intro h hmem
        have := (mem_housesOf g g.length n h).1 hmem
        exact ⟨this.1, this.2.1⟩)
      (by rw [htot, hhs]; rfl) i j]
    rw [hhs, List.map_cons, List.map_nil, List.sum_cons, List.sum_nil, add_zero]
    rw [natDist_cast, natDist_cast]
  constructor
  · have hne : g ≠ [] := by
      intro hge
      rw [hge] at hr
      simp at hr
    have hwne : g.headD [] ≠ [] := by
      have hlen := headD_length g n hne hrect
      intro hh
      rw [hh] at hlen
      simp at hlen
      omega
    have h1 : ¬(g = [] ∨ g.headD [] = []) := by
      rintro (h | h)
      · exact hne h
      · exact hwne h
    rw [min_total_distance_fast_eq g h1 (by rw [htot]; norm_num) ((has_only_01_iff g).2 h01)]
    rw [headD_length g n hne hrect]
    rw [fast_total_distance]
    have hadj : ∃ p : Nat × Nat, p.1 < g.length ∧ p.2 < n ∧ mdist (r, c) p = 1 := by
      rcases Nat.lt_or_ge (r + 1) g.length with h | h
      · exact ⟨(r + 1, c), h, hc, by simp [mdist, Nat.dist]⟩
      · rcases Nat.lt_or_ge (c + 1) n with h2 | h2
        · exact ⟨(r, c + 1), hr, h2, by simp [mdist, Nat.dist]⟩
        · have hr1 : 1 ≤ r ∨ 1 ≤ c := by
            by_contra hcon
            push_neg at hcon
            have : r = 0 := by omega
            have : c = 0 := by omega
            have hml : g.length ≤ 1 := by omega
            have hnl : n ≤ 1 := by omega
            have := hsize
            have : g.length * n ≤ 1 := by
              calc g.length * n ≤ 1 * 1 := Nat.mul_le_mul hml hnl
              _ = 1 := by norm_num
            omega
          rcases hr1 with h3 | h3
          · exact ⟨(r - 1, c), by omega, hc, by simp [mdist, Nat.dist]; omega⟩
          · exact ⟨(r, c - 1), hr, by omega, by simp [mdist, Nat.dist]; omega⟩
    rcases hadj with ⟨p, hp1, hp2, hp3⟩
    have hpne : p ≠ (r, c) := by
      intro hpe
      rw [hpe] at hp3
      simp [mdist, Nat.dist] at hp3
    have hpcell : cell g p.1 p.2 = 0 := by
      rw [hcells p.1 hp1 p.2 hp2, if_neg (by rw [← Prod.mk.eta (p := p)] at hpne; exact hpne)]
    have hpmem : p ∈ cellList g.length n := (mem_cellList g.length n p).2 ⟨hp1, hp2⟩
    have hpp : (cell g p.1 p.2 == 0) = true := by
      rw [hpcell]
      rfl
    have hfp : costArr (houseCounts (housesOf g g.length n)).1 g.length (total_houses g) p.1
        + costArr (houseCounts (housesOf g g.length n)).2 n (total_houses g) p.2 = 1 := by
      rw [hcost p.1 p.2]
      have : Nat.dist r p.1 + Nat.dist c p.2 = 1 := hp3
      omega
    rcases hscan : scanMin (cellList g.length n) (fun c' => cell g c'.1 c'.2 == 0)
        (fun c' =>
          costArr (houseCounts (housesOf g g.length n)).1 g.length (total_houses g) c'.1
            + costArr (houseCounts (housesOf g g.length n)).2 n (total_houses g) c'.2)
        with _ | v
    · exfalso
      have hfalse := (scanMin_none_iff _ _ _).1 hscan p hpmem
      rw [hpcell] at hfalse
      simp at hfalse
    · have hspec := scanMin_some_spec _ _ _ v hscan
      have hvle : v ≤ 1 := by
        have := hspec.2 p hpmem hpp
        rw [hfp] at this
        exact this
      have hvge : 1 ≤ v := by
        rcases hspec.1 with ⟨q, hqmem, hqp, hqv⟩
        have hq := (mem_cellList g.length n q).1 hqmem
        have hqcell : cell g q.1 q.2 = 0 := by
          simpa using hqp
        have hqne : ¬ (q.1 = r ∧ q.2 = c) := by
          rintro ⟨h1, h2⟩
          have := hcells q.1 hq.1 q.2 hq.2
          rw [hqcell] at this
          rw [h1, h2, if_pos rfl] at this
          cases this
        rw [← hqv]
        rw [hcost q.1 q.2]
        have : 1 ≤ Nat.dist r q.1 + Nat.dist c q.2 := by
          simp only [Nat.dist]
          omega
        omega
      have : v = 1 := le_antisymm hvle hvge
      rw [this]
      rfl
  · intro i j hi hj hadj
    rw [hcost i j]
    have : Nat.dist r i + Nat.dist c j = 1 := hadj
    omega

/-- Witness for C8 on the concrete 2-by-2 grid with its house at (0, 0). -/
theorem mdist_self (a : Nat × Nat) : mdist a a = 0 := by
  simp [mdist, Nat.dist]

theorem mdist_eq_zero (a b : Nat × Nat) : mdist a b = 0 ↔ a = b := by
  rw [Prod.ext_iff]
  simp only [mdist, Nat.dist]
  omega

theorem mdist_triangle (a b c : Nat × Nat) : mdist a c ≤ mdist a b + mdist b c := by
  simp only [mdist, Nat.dist]
  omega

theorem targ_some_iff (m n x y : Nat) (dir : Int × Int) (c : Nat × Nat) :
    targ m n x y dir = some c ↔
      ((c.1 : Int) = (x : Int) + dir.1 ∧ (c.2 : Int) = (y : Int) + dir.2 ∧
        c.1 < m ∧ c.2 < n) := by
  rw [targ]
  by_cases hb : 0 ≤ (x : Int) + dir.1 ∧ (x : Int) + dir.1 < (m : Int) ∧
      0 ≤ (y : Int) + dir.2 ∧ (y : Int) + dir.2 < (n : Int)
  · rw [if_pos hb]
    obtain ⟨h1, h2, h3, h4⟩ := hb
    constructor
    · intro he
      have he2 := Option.some.inj he
      rw [← he2]
      refine ⟨by omega, by omega, by omega, by omega⟩
    · rintro ⟨hc1, hc2, _, _⟩
      congr 1
      have e1 : ((x : Int) + dir.1).toNat = c.1 := by omega
      have e2 : ((y : Int) + dir.2).toNat = c.2 := by omega
      rw [e1, e2]
  · rw [if_neg hb]
    constructor
    · intro h; cases h
    · rintro ⟨hc1, hc2, hm, hn⟩
      exfalso
      apply hb
      refine ⟨by omega, by omega, by omega, by omega⟩

theorem targ_inj (m n x y : Nat) (d1 d2 : Int × Int) (c : Nat × Nat)
    (h1 : targ m n x y d1 = some c) (h2 : targ m n x y d2 = some c) : d1 = d2 := by
  rw [targ_some_iff] at h1 h2
  have : d1.1 = d2.1 := by omega
  have : d1.2 = d2.2 := by omega
  apply Prod.ext <;> omega

theorem directions_pairwise (m n x y : Nat) :
    List.Pairwise
      (fun d1 d2 => ∀ c, targ m n x y d1 = some c → targ m n x y d2 = some c → False)
      directions := by
  have hnd : directions.Nodup := by decide
  apply List.Pairwise.imp ?_ hnd
  intro d1 d2 hne c h1 h2
  exact hne (targ_inj m n x y d1 d2 c h1 h2)

theorem target_iff_adjacent (m n x y : Nat) (hx : x < m) (hy : y < n) (c : Nat × Nat) :
    (∃ dir ∈ directions, targ m n x y dir = some c) ↔
      (inb m n c ∧ mdist (x, y) c = 1) := by
  constructor
  · rintro ⟨dir, hdir, htarg⟩
    rw [targ_some_iff] at htarg
    simp only [directions, List.mem_cons, List.not_mem_nil, or_false] at hdir
    rcases hdir with rfl | rfl | rfl | rfl <;>
      · refine ⟨⟨by omega, by omega⟩, ?_⟩
        simp only [mdist, Nat.dist]
        omega
  · rintro ⟨⟨hc1, hc2⟩, hmd⟩
    simp only [mdist, Nat.dist] at hmd
    have hcases : (c.1 = x + 1 ∧ c.2 = y) ∨ (c.1 + 1 = x ∧ c.2 = y) ∨
        (c.1 = x ∧ c.2 = y + 1) ∨ (c.1 = x ∧ c.2 + 1 = y) := by omega
    rcases hcases with ⟨e1, e2⟩ | ⟨e1, e2⟩ | ⟨e1, e2⟩ | ⟨e1, e2⟩
    · exact ⟨(1, 0), by simp [directions], by rw [targ_some_iff]; exact ⟨by omega, by omega, hc1, hc2⟩⟩
    · exact ⟨(-1, 0), by simp [directions], by rw [targ_some_iff]; exact ⟨by omega, by omega, hc1, hc2⟩⟩
    · exact ⟨(0, 1), by simp [directions], by rw [targ_some_iff]; exact ⟨by omega, by omega, hc1, hc2⟩⟩
    · exact ⟨(0, -1), by simp [directions], by rw [targ_some_iff]; exact ⟨by omega, by omega, hc1, hc2⟩⟩

theorem mdist_down (m n : Nat) (h c : Nat × Nat) (hh : inb m n h) (hc : inb m n c)
    (k : Nat) (hk : mdist h c = k + 1) :
    ∃ b, inb m n b ∧ mdist h b = k ∧ mdist b c = 1 := by
  by_cases h1 : h.1 < c.1
  · refine ⟨(c.1 - 1, c.2), ⟨by omega, hc.2⟩, ?_, ?_⟩ <;>
      · simp only [mdist, Nat.dist] at hk ⊢
        omega
  · by_cases h2 : c.1 < h.1
    · refine ⟨(c.1 + 1, c.2), ⟨by omega, hc.2⟩, ?_, ?_⟩ <;>
        · simp only [mdist, Nat.dist] at hk ⊢
          omega
    · by_cases h3 : h.2 < c.2
      · refine ⟨(c.1, c.2 - 1), ⟨hc.1, by omega⟩, ?_, ?_⟩ <;>
          · simp only [mdist, Nat.dist] at hk ⊢
            omega
      · by_cases h4 : c.2 < h.2
        · refine ⟨(c.1, c.2 + 1), ⟨hc.1, by omega⟩, ?_, ?_⟩ <;>
            · simp only [mdist, Nat.dist] at hk ⊢
              omega
        · exfalso
          simp only [mdist, Nat.dist] at hk
          omega

theorem mdist_exists_of_le (m n : Nat) (h : Nat × Nat) (hh : inb m n h) :
    ∀ (j : Nat) (c : Nat × Nat), inb m n c → ∀ k, mdist h c = k + j →
      ∃ b, inb m n b ∧ mdist h b = k := by
  intro j
  induction j with
  | zero => exact fun c hc k hk => ⟨c, hc, by omega⟩
  | succ i ih =>
    intro c hc k hk
    have : mdist h c = (k + i) + 1 := by omega
    rcases mdist_down m n h c hh hc (k + i) this with ⟨b, hb, hbd, _⟩
    exact ih b hb k hbd

theorem C8_single_house_witness :
    min_total_distance [[1, 0], [0, 0]] = 1 ∧
      ∀ i j, i < 2 → j < 2 → mdist (0, 0) (i, j) = 1 →
        costArr (houseCounts (housesOf [[1, 0], [0, 0]] 2 2)).1 2
            (total_houses [[1, 0], [0, 0]]) i
          + costArr (houseCounts (housesOf [[1, 0], [0, 0]] 2 2)).2 2
            (total_houses [[1, 0], [0, 0]]) j = 1 :=
  C8_single_house [[1, 0], [0, 0]] 2 2 0 0 (by decide) (by decide) (by decide)
    (by decide) (by decide) (by decide)

theorem tryVisit_none (m n id x y d : Nat) (sq : BfsState × List (Nat × Nat × Nat))
    (dir : Int × Int) (h : targ m n x y dir = none) :
    tryVisit m n id x y d sq dir = sq := by
  rw [targ] at h
  by_cases hb : 0 ≤ (x : Int) + dir.1 ∧ (x : Int) + dir.1 < (m : Int) ∧
      0 ≤ (y : Int) + dir.2 ∧ (y : Int) + dir.2 < (n : Int)
  · rw [if_pos hb] at h
    cases h
  · simp only [tryVisit]
    rw [if_neg hb]

theorem tryVisit_skip (m n id x y d : Nat) (s : BfsState)
    (q : List (Nat × Nat × Nat)) (dir : Int × Int) (c : Nat × Nat)
    (h : targ m n x y dir = some c)
    (hsk : ¬(s.visited c ≠ id ∧ cell s.grid c.1 c.2 ≠ 2)) :
    tryVisit m n id x y d (s, q) dir = (s, q) := by
  obtain ⟨hc1, hc2, hm, hn⟩ := (targ_some_iff m n x y dir c).1 h
  have hb : 0 ≤ (x : Int) + dir.1 ∧ (x : Int) + dir.1 < (m : Int) ∧
      0 ≤ (y : Int) + dir.2 ∧ (y : Int) + dir.2 < (n : Int) :=
    ⟨by omega, by omega, by omega, by omega⟩
  have e1 : ((x : Int) + dir.1).toNat = c.1 := by omega
  have e2 : ((y : Int) + dir.2).toNat = c.2 := by omega
  simp only [tryVisit]
  rw [if_pos hb, e1, e2, Prod.mk.eta]
  rw [if_neg hsk]

theorem tryVisit_mark_empty (m n id x y d : Nat) (s : BfsState)
    (q : List (Nat × Nat × Nat)) (dir : Int × Int) (c : Nat × Nat)
    (h : targ m n x y dir = some c) (hv : s.visited c ≠ id)
    (h2 : cell s.grid c.1 c.2 ≠ 2) (h0 : cell s.grid c.1 c.2 = 0) :
    tryVisit m n id x y d (s, q) dir =
      ({ grid := s.grid,
         dist := fun c' => if c' = c then s.dist c' + ((d : Int) + 1) else s.dist c',
         reach := fun c' => if c' = c then s.reach c' + 1 else s.reach c',
         visited := fun c' => if c' = c then id else s.visited c' },
       q ++ [(c.1, c.2, d + 1)]) := by
  obtain ⟨hc1, hc2, hm, hn⟩ := (targ_some_iff m n x y dir c).1 h
  have hb : 0 ≤ (x : Int) + dir.1 ∧ (x : Int) + dir.1 < (m : Int) ∧
      0 ≤ (y : Int) + dir.2 ∧ (y : Int) + dir.2 < (n : Int) :=
    ⟨by omega, by omega, by omega, by omega⟩
  have e1 : ((x : Int) + dir.1).toNat = c.1 := by omega
  have e2 : ((y : Int) + dir.2).toNat = c.2 := by omega
  simp only [tryVisit]
  rw [if_pos hb, e1, e2, Prod.mk.eta]
  rw [if_pos (show s.visited c ≠ id ∧ cell s.grid c.1 c.2 ≠ 2 from ⟨hv, h2⟩)]
  rw [if_pos h0]

theorem tryVisit_mark_pass (m n id x y d : Nat) (s : BfsState)
    (q : List (Nat × Nat × Nat)) (dir : Int × Int) (c : Nat × Nat)
    (h : targ m n x y dir = some c) (hv : s.visited c ≠ id)
    (h2 : cell s.grid c.1 c.2 ≠ 2) (h0 : ¬ cell s.grid c.1 c.2 = 0) :
    tryVisit m n id x y d (s, q) dir =
      ({ grid := s.grid, dist := s.dist, reach := s.reach,
         visited := fun c' => if c' = c then id else s.visited c' },
       q ++ [(c.1, c.2, d + 1)]) := by
  obtain ⟨hc1, hc2, hm, hn⟩ := (targ_some_iff m n x y dir c).1 h
  have hb : 0 ≤ (x : Int) + dir.1 ∧ (x : Int) + dir.1 < (m : Int) ∧
      0 ≤ (y : Int) + dir.2 ∧ (y : Int) + dir.2 < (n : Int) :=
    ⟨by omega, by omega, by omega, by omega⟩
  have e1 : ((x : Int) + dir.1).toNat = c.1 := by omega
  have e2 : ((y : Int) + dir.2).toNat = c.2 := by omega
  simp only [tryVisit]
  rw [if_pos hb, e1, e2, Prod.mk.eta]
  rw [if_pos (show s.visited c ≠ id ∧ cell s.grid c.1 c.2 ≠ 2 from ⟨hv, h2⟩)]
  rw [if_neg h0]

theorem Newly_nil (m n id : Nat) (s : BfsState) (x y : Nat) (c : Nat × Nat) :
    ¬ Newly m n id s x y [] c := by
  rintro ⟨⟨dir, hdir, _⟩, _, _⟩
  cases hdir

theorem Newly_cons_none (m n id : Nat) (s : BfsState) (x y : Nat)
    (dir : Int × Int) (dirs : List (Int × Int)) (c : Nat × Nat)
    (h : targ m n x y dir = none) :
    Newly m n id s x y (dir :: dirs) c ↔ Newly m n id s x y dirs c := by
  unfold Newly
  constructor
  · rintro ⟨⟨d', hd', ht⟩, h2, h3⟩
    rcases List.mem_cons.1 hd' with rfl | hd'
    · rw [h] at ht
      cases ht
    · exact ⟨⟨d', hd', ht⟩, h2, h3⟩
  · rintro ⟨⟨d', hd', ht⟩, h2, h3⟩
    exact ⟨⟨d', List.mem_cons_of_mem dir hd', ht⟩, h2, h3⟩

theorem Newly_cons_skip (m n id : Nat) (s : BfsState) (x y : Nat)
    (dir : Int × Int) (dirs : List (Int × Int)) (c c0 : Nat × Nat)
    (h : targ m n x y dir = some c0)
    (hsk : ¬(s.visited c0 ≠ id ∧ cell s.grid c0.1 c0.2 ≠ 2)) :
    Newly m n id s x y (dir :: dirs) c ↔ Newly m n id s x y dirs c := by
  unfold Newly
  constructor
  · rintro ⟨⟨d', hd', ht⟩, h2, h3⟩
    rcases List.mem_cons.1 hd' with rfl | hd'
    · rw [h] at ht
      have hce := Option.some.inj ht
      subst hce
      exact absurd ⟨h2, h3⟩ hsk
    · exact ⟨⟨d', hd', ht⟩, h2, h3⟩
  · rintro ⟨⟨d', hd', ht⟩, h2, h3⟩
    exact ⟨⟨d', List.mem_cons_of_mem dir hd', ht⟩, h2, h3⟩

theorem Newly_cons_mark (m n id : Nat) (s s1 : BfsState) (x y : Nat)
    (dir : Int × Int) (dirs : List (Int × Int)) (c c0 : Nat × Nat)
    (h : targ m n x y dir = some c0) (hv : s.visited c0 ≠ id)
    (h2 : cell s.grid c0.1 c0.2 ≠ 2)
    (hg : s1.grid = s.grid)
    (hvis : ∀ c', s1.visited c' = if c' = c0 then id else s.visited c')
    (hdisj : ∀ d' ∈ dirs, targ m n x y d' = some c0 → False) :
    Newly m n id s x y (dir :: dirs) c ↔ (Newly m n id s1 x y dirs c ∨ c = c0) := by
  constructor
  · rintro ⟨⟨d', hd', ht⟩, hvc, hcc⟩
    rcases List.mem_cons.1 hd' with rfl | hd'
    · right
      exact (Option.some.inj ((h.symm.trans ht))).symm
    · by_cases hcc0 : c = c0
      · exact Or.inr hcc0
      · left
        refine ⟨⟨d', hd', ht⟩, ?_, ?_⟩
        · rw [hvis c, if_neg hcc0]
          exact hvc
        · rw [hg]
          exact hcc
  · rintro (⟨⟨d', hd', ht⟩, hvc, hcc⟩ | rfl)
    · have hcc0 : c ≠ c0 := by
        intro hce
        rw [hvis c, if_pos hce] at hvc
        exact hvc rfl
      refine ⟨⟨d', List.mem_cons_of_mem dir hd', ht⟩, ?_, ?_⟩
      · rw [hvis c, if_neg hcc0] at hvc
        exact hvc
      · rw [hg] at hcc
        exact hcc
    · exact ⟨⟨dir, List.mem_cons_self dir dirs, h⟩, hv, h2⟩

theorem FoldOut_of_iff (m n id d : Nat) (s : BfsState) (x y : Nat)
    (dirs1 dirs2 : List (Int × Int)) (q : List (Nat × Nat × Nat))
    (out : BfsState × List (Nat × Nat × Nat))
    (hN : ∀ c, Newly m n id s x y dirs1 c ↔ Newly m n id s x y dirs2 c)
    (h : FoldOut m n id d s x y dirs2 q out) :
    FoldOut m n id d s x y dirs1 q out := by
  refine ⟨h.grid_eq, ?_, ?_, ?_, ?_, ?_, ?_, ?_⟩
  · obtain ⟨A, hA1, hA2, hA3, hA4⟩ := h.qapp
    exact ⟨A, hA1, fun e he => ⟨(hA2 e he).1, (hN _).2 (hA2 e he).2⟩,
      fun c hc => hA3 c ((hN c).1 hc), hA4⟩
  · exact fun c hc => h.vis_new c ((hN c).1 hc)
  · exact fun c hc => h.vis_old c fun hh => hc ((hN c).2 hh)
  · exact fun c hc h0 => h.dist_new c ((hN c).1 hc) h0
  · exact fun c hc => h.dist_old c fun hh => hc ⟨(hN c).2 hh.1, hh.2⟩
  · exact fun c hc h0 => h.reach_new c ((hN c).1 hc) h0
  · exact fun c hc => h.reach_old c fun hh => hc ⟨(hN c).2 hh.1, hh.2⟩

theorem foldTry_spec (m n id d x y : Nat) :
    ∀ dirs : List (Int × Int),
      List.Pairwise
        (fun d1 d2 => ∀ c, targ m n x y d1 = some c → targ m n x y d2 = some c → False)
        dirs →
      ∀ (s : BfsState) (q : List (Nat × Nat × Nat)),
        FoldOut m n id d s x y dirs q (dirs.foldl (tryVisit m n id x y d) (s, q)) := by
  intro dirs
  induction dirs with
  | nil =>
    intro _ s q
    refine ⟨rfl, ⟨[], by simp, by simp, ?_, by simp⟩, ?_, ?_, ?_, ?_, ?_, ?_⟩
    · exact fun c hc => absurd hc (Newly_nil m n id s x y c)
    · exact fun c hc => absurd hc (Newly_nil m n id s x y c)
    · exact fun c _ => rfl
    · exact fun c hc h0 => absurd hc (Newly_nil m n id s x y c)
    · exact fun c _ => rfl
    · exact fun c hc h0 => absurd hc (Newly_nil m n id s x y c)
    · exact fun c _ => rfl
  | cons dir dirs ih =>
    intro hpw s q
    obtain ⟨hhead, htail⟩ := List.pairwise_cons.1 hpw
    rw [List.foldl_cons]
    rcases htarg : targ m n x y dir with _ | c0
    · rw [tryVisit_none m n id x y d (s, q) dir htarg]
      exact FoldOut_of_iff m n id d s x y (dir :: dirs) dirs q _
        (fun c => Newly_cons_none m n id s x y dir dirs c htarg) (ih htail s q)
    · by_cases hsk : s.visited c0 ≠ id ∧ cell s.grid c0.1 c0.2 ≠ 2
      · obtain ⟨hv, h2⟩ := hsk
        have hdisj : ∀ dd ∈ dirs, targ m n x y dd = some c0 → False :=
          fun dd hd ht => hhead dd hd c0 htarg ht
        by_cases h0 : cell s.grid c0.1 c0.2 = 0
        · rw [tryVisit_mark_empty m n id x y d s q dir c0 htarg hv h2 h0]
          set s1 : BfsState :=
            { grid := s.grid,
              dist := fun cc => if cc = c0 then s.dist cc + ((d : Int) + 1) else s.dist cc,
              reach := fun cc => if cc = c0 then s.reach cc + 1 else s.reach cc,
              visited := fun cc => if cc = c0 then id else s.visited cc } with hs1
          have hout := ih htail s1 (q ++ [(c0.1, c0.2, d + 1)])
          have hNc : ∀ c, Newly m n id s x y (dir :: dirs) c ↔
              (Newly m n id s1 x y dirs c ∨ c = c0) :=
            fun c => Newly_cons_mark m n id s s1 x y dir dirs c c0 htarg hv h2 rfl
              (fun cc => rfl) hdisj
          have hne0 : ∀ c, Newly m n id s1 x y dirs c → c ≠ c0 := by
            intro c hcN hce
            apply hcN.2.1
            rw [hce, hs1]
            simp
          refine ⟨hout.grid_eq, ?_, ?_, ?_, ?_, ?_, ?_, ?_⟩
          · obtain ⟨A, hA1, hA2, hA3, hA4⟩ := hout.qapp
            refine ⟨(c0.1, c0.2, d + 1) :: A, ?_, ?_, ?_, ?_⟩
            · rw [hA1, List.append_assoc]
              rfl
            · intro e he
              rcases List.mem_cons.1 he with rfl | he
              · exact ⟨rfl, (hNc c0).2 (Or.inr rfl)⟩
              · exact ⟨(hA2 e he).1, (hNc _).2 (Or.inl (hA2 e he).2)⟩
            · intro c hc
              rcases (hNc c).1 hc with hc1 | rfl
              · obtain ⟨e, he, hee⟩ := hA3 c hc1
                exact ⟨e, List.mem_cons_of_mem _ he, hee⟩
              · exact ⟨(c.1, c.2, d + 1), List.mem_cons_self _ _, rfl⟩
            · rw [List.map_cons]
              refine List.nodup_cons.2 ⟨?_, hA4⟩
              intro hmem
              rcases List.mem_map.1 hmem with ⟨e, he, hee⟩
              exact hne0 (qcell e) (hA2 e he).2 hee
          · intro c hc
            rcases (hNc c).1 hc with hc1 | rfl
            · exact hout.vis_new c hc1
            · rw [hout.vis_old c fun hN => hne0 c hN rfl]
              rw [hs1]
              simp
          · intro c hc
            have hcn : ¬ Newly m n id s1 x y dirs c := fun h => hc ((hNc c).2 (Or.inl h))
            have hcc0 : c ≠ c0 := fun he => hc ((hNc c).2 (Or.inr he))
            rw [hout.vis_old c hcn, hs1]
            simp [if_neg hcc0]
          · intro c hc h0c
            rcases (hNc c).1 hc with hc1 | rfl
            · rw [hout.dist_new c hc1 h0c, hs1]
              simp [if_neg (hne0 c hc1)]
            · rw [hout.dist_old c fun hh => hne0 c hh.1 rfl, hs1]
              simp
          · intro c hc
            by_cases hN : Newly m n id s x y (dir :: dirs) c
            · have h0c : ¬ cell s.grid c.1 c.2 = 0 := fun h => hc ⟨hN, h⟩
              rcases (hNc c).1 hN with hc1 | rfl
              · rw [hout.dist_old c fun hh => h0c hh.2, hs1]
                simp [if_neg (hne0 c hc1)]
              · exact absurd h0 h0c
            · have hcn : ¬ Newly m n id s1 x y dirs c := fun h => hN ((hNc c).2 (Or.inl h))
              have hcc0 : c ≠ c0 := fun he => hN ((hNc c).2 (Or.inr he))
              rw [hout.dist_old c fun hh => hcn hh.1, hs1]
              simp [if_neg hcc0]
          · intro c hc h0c
            rcases (hNc c).1 hc with hc1 | rfl
            · rw [hout.reach_new c hc1 h0c, hs1]
              simp [if_neg (hne0 c hc1)]
            · rw [hout.reach_old c fun hh => hne0 c hh.1 rfl, hs1]
              simp
          · intro c hc
            by_cases hN : Newly m n id s x y (dir :: dirs) c
            · have h0c : ¬ cell s.grid c.1 c.2 = 0 := fun h => hc ⟨hN, h⟩
              rcases (hNc c).1 hN with hc1 | rfl
              · rw [hout.reach_old c fun hh => h0c hh.2, hs1]
                simp [if_neg (hne0 c hc1)]
              · exact absurd h0 h0c
            · have hcn : ¬ Newly m n id s1 x y dirs c := fun h => hN ((hNc c).2 (Or.inl h))
              have hcc0 : c ≠ c0 := fun he => hN ((hNc c).2 (Or.inr he))
              rw [hout.reach_old c fun hh => hcn hh.1, hs1]
              simp [if_neg hcc0]
        · rw [tryVisit_mark_pass m n id x y d s q dir c0 htarg hv h2 h0]
          set s1 : BfsState :=
            { grid := s.grid, dist := s.dist, reach := s.reach,
              visited := fun cc => if cc = c0 then id else s.visited cc } with hs1
          have hout := ih htail s1 (q ++ [(c0.1, c0.2, d + 1)])
          have hNc : ∀ c, Newly m n id s x y (dir :: dirs) c ↔
              (Newly m n id s1 x y dirs c ∨ c = c0) :=
            fun c => Newly_cons_mark m n id s s1 x y dir dirs c c0 htarg hv h2 rfl
              (fun cc => rfl) hdisj
          have hne0 : ∀ c, Newly m n id s1 x y dirs c → c ≠ c0 := by
            intro c hcN hce
            apply hcN.2.1
            rw [hce, hs1]
            simp
          refine ⟨hout.grid_eq, ?_, ?_, ?_, ?_, ?_, ?_, ?_⟩
          · obtain ⟨A, hA1, hA2, hA3, hA4⟩ := hout.qapp
            refine ⟨(c0.1, c0.2, d + 1) :: A, ?_, ?_, ?_, ?_⟩
            · rw [hA1, List.append_assoc]
              rfl
            · intro e he
              rcases List.mem_cons.1 he with rfl | he
              · exact ⟨rfl, (hNc c0).2 (Or.inr rfl)⟩
              · exact ⟨(hA2 e he).1, (hNc _).2 (Or.inl (hA2 e he).2)⟩
            · intro c hc
              rcases (hNc c).1 hc with hc1 | rfl
              · obtain ⟨e, he, hee⟩ := hA3 c hc1
                exact ⟨e, List.mem_cons_of_mem _ he, hee⟩
              · exact ⟨(c.1, c.2, d + 1), List.mem_cons_self _ _, rfl⟩
            · rw [List.map_cons]
              refine List.nodup_cons.2 ⟨?_, hA4⟩
              intro hmem
              rcases List.mem_map.1 hmem with ⟨e, he, hee⟩
              exact hne0 (qcell e) (hA2 e he).2 hee
          · intro c hc
            rcases (hNc c).1 hc with hc1 | rfl
            · exact hout.vis_new c hc1
            · rw [hout.vis_old c fun hN => hne0 c hN rfl]
              rw [hs1]
              simp
          · intro c hc
            have hcn : ¬ Newly m n id s1 x y dirs c := fun h => hc ((hNc c).2 (Or.inl h))
            have hcc0 : c ≠ c0 := fun he => hc ((hNc c).2 (Or.inr he))
            rw [hout.vis_old c hcn, hs1]
            simp [if_neg hcc0]
          · intro c hc h0c
            rcases (hNc c).1 hc with hc1 | rfl
            · exact hout.dist_new c hc1 h0c
            · exact absurd h0c h0
          · intro c hc
            by_cases hN : Newly m n id s x y (dir :: dirs) c
            · have h0c : ¬ cell s.grid c.1 c.2 = 0 := fun h => hc ⟨hN, h⟩
              rcases (hNc c).1 hN with hc1 | rfl
              · exact hout.dist_old c fun hh => h0c hh.2
              · exact hout.dist_old c fun hh => hne0 c hh.1 rfl
            · have hcn : ¬ Newly m n id s1 x y dirs c := fun h => hN ((hNc c).2 (Or.inl h))
              exact hout.dist_old c fun hh => hcn hh.1
          · intro c hc h0c
            rcases (hNc c).1 hc with hc1 | rfl
            · exact hout.reach_new c hc1 h0c
            · exact absurd h0c h0
          · intro c hc
            by_cases hN : Newly m n id s x y (dir :: dirs) c
            · have h0c : ¬ cell s.grid c.1 c.2 = 0 := fun h => hc ⟨hN, h⟩
              rcases (hNc c).1 hN with hc1 | rfl
              · exact hout.reach_old c fun hh => h0c hh.2
              · exact hout.reach_old c fun hh => hne0 c hh.1 rfl
            · have hcn : ¬ Newly m n id s1 x y dirs c := fun h => hN ((hNc c).2 (Or.inl h))
              exact hout.reach_old c fun hh => hcn hh.1
      · rw [tryVisit_skip m n id x y d s q dir c0 htarg hsk]
        exact FoldOut_of_iff m n id d s x y (dir :: dirs) dirs q _
          (fun c => Newly_cons_skip m n id s x y dir dirs c c0 htarg hsk) (ih htail s q)

theorem tryVisit_grid (m n id x y d : Nat) (sq : BfsState × List (Nat × Nat × Nat))
    (dir : Int × Int) : (tryVisit m n id x y d sq dir).1.grid = sq.1.grid := by
  simp only [tryVisit]
  repeat' split
  all_goals rfl

theorem foldl_tryVisit_grid (m n id x y d : Nat) (dirs : List (Int × Int)) :
    ∀ sq : BfsState × List (Nat × Nat × Nat),
      (dirs.foldl (tryVisit m n id x y d) sq).1.grid = sq.1.grid := by
  induction dirs with
  | nil => intro sq; rfl
  | cons dir dirs ih =>
    intro sq
    rw [List.foldl_cons]
    rw [ih (tryVisit m n id x y d sq dir)]
    exact tryVisit_grid m n id x y d sq dir

theorem bfsLoop_grid (m n id : Nat) :
    ∀ (fuel : Nat) (sq : BfsState × List (Nat × Nat × Nat)),
      (bfsLoop m n id fuel sq).grid = sq.1.grid := by
  intro fuel
  induction fuel with
  | zero => intro sq; rfl
  | succ f ih =>
    rintro ⟨s, q⟩
    rcases q with _ | ⟨⟨x, y, dd⟩, rest⟩
    · rfl
    · rw [bfsLoop, ih]
      exact foldl_tryVisit_grid m n id x y dd directions (s, rest)

theorem bfsHouse_grid (m n : Nat) (sv : BfsState × Nat) (h : Nat × Nat) :
    (bfsHouse m n sv h).1.grid = sv.1.grid := by
  simp only [bfsHouse]
  rw [bfsLoop_grid]

/-- Claim C10: the embedded BFS engine threads its mutable state (the
dist, reach and visited arrays, freshly zero-initialised per run) while
its grid component is never written: after any run, the state's grid
equals the input grid.  The solver and the separable engine only read the
grid, so no call mutates the input. -/
theorem C10_grid_frame (g : Grid) (houses : List (Nat × Nat)) (m n : Nat) :
    (bfsRun g houses m n).grid = g := by
  rw [bfsRun]
  have hfold : ∀ (hs : List (Nat × Nat)) (sv : BfsState × Nat),
      ((hs.foldl (bfsHouse m n) sv).1.grid = sv.1.grid) := by
    intro hs
    induction hs with
    | nil => intro sv; rfl
    | cons h hs ih =>
      intro sv
      rw [List.foldl_cons, ih (bfsHouse m n sv h)]
      exact bfsHouse_grid m n sv h
  rw [hfold houses _]

theorem tryVisit_marker2 (m n id x y d : Nat) (s : BfsState)
    (q : List (Nat × Nat × Nat)) (dir : Int × Int) (c : Nat × Nat)
    (hc : cell s.grid c.1 c.2 = 2) :
    (tryVisit m n id x y d (s, q) dir).1.visited c = s.visited c ∧
    (tryVisit m n id x y d (s, q) dir).1.dist c = s.dist c ∧
    (tryVisit m n id x y d (s, q) dir).1.reach c = s.reach c := by
  rcases htarg : targ m n x y dir with _ | c0
  · rw [tryVisit_none m n id x y d (s, q) dir htarg]
    exact ⟨rfl, rfl, rfl⟩
  · by_cases hsk : s.visited c0 ≠ id ∧ cell s.grid c0.1 c0.2 ≠ 2
    · have hne : c ≠ c0 := by
        intro he
        rw [he] at hc
        exact hsk.2 hc
      by_cases h0 : cell s.grid c0.1 c0.2 = 0
      · rw [tryVisit_mark_empty m n id x y d s q dir c0 htarg hsk.1 hsk.2 h0]
        refine ⟨?_, ?_, ?_⟩ <;> simp [if_neg hne]
      · rw [tryVisit_mark_pass m n id x y d s q dir c0 htarg hsk.1 hsk.2 h0]
        refine ⟨?_, rfl, rfl⟩
        simp [if_neg hne]
    · rw [tryVisit_skip m n id x y d s q dir c0 htarg hsk]
      exact ⟨rfl, rfl, rfl⟩

theorem foldl_marker2 (m n id x y d : Nat) (dirs : List (Int × Int)) :
    ∀ (s : BfsState) (q : List (Nat × Nat × Nat)) (c : Nat × Nat),
      cell s.grid c.1 c.2 = 2 →
      (dirs.foldl (tryVisit m n id x y d) (s, q)).1.visited c = s.visited c ∧
      (dirs.foldl (tryVisit m n id x y d) (s, q)).1.dist c = s.dist c ∧
      (dirs.foldl (tryVisit m n id x y d) (s, q)).1.reach c = s.reach c := by
  induction dirs with
  | nil => exact fun s q c _ => ⟨rfl, rfl, rfl⟩
  | cons dir dirs ih =>
    intro s q c hc
    rw [List.foldl_cons]
    rcases hstep : tryVisit m n id x y d (s, q) dir with ⟨s1, q1⟩
    have hg : s1.grid = s.grid := by
      have := tryVisit_grid m n id x y d (s, q) dir
      rw [hstep] at this
      exact this
    have hc1 : cell s1.grid c.1 c.2 = 2 := by rw [hg]; exact hc
    have hstepf := tryVisit_marker2 m n id x y d s q dir c hc
    rw [hstep] at hstepf
    have hrec := ih s1 q1 c hc1
    exact ⟨hrec.1.trans hstepf.1, hrec.2.1.trans hstepf.2.1, hrec.2.2.trans hstepf.2.2⟩

theorem bfsLoop_marker2 (m n id : Nat) :
    ∀ (fuel : Nat) (s : BfsState) (q : List (Nat × Nat × Nat)) (c : Nat × Nat),
      cell s.grid c.1 c.2 = 2 →
      (bfsLoop m n id fuel (s, q)).visited c = s.visited c ∧
      (bfsLoop m n id fuel (s, q)).dist c = s.dist c ∧
      (bfsLoop m n id fuel (s, q)).reach c = s.reach c := by
  intro fuel
  induction fuel with
  | zero => exact fun s q c _ => ⟨rfl, rfl, rfl⟩
  | succ f ih =>
    intro s q c hc
    rcases q with _ | ⟨⟨x, y, dd⟩, rest⟩
    · exact ⟨rfl, rfl, rfl⟩
    · have hred : bfsLoop m n id (f + 1) (s, (x, y, dd) :: rest)
          = bfsLoop m n id f (directions.foldl (tryVisit m n id x y dd) (s, rest)) := rfl
      rw [hred]
      rcases hstep : directions.foldl (tryVisit m n id x y dd) (s, rest) with ⟨s1, q1⟩
      have hg : s1.grid = s.grid := by
        have := foldl_tryVisit_grid m n id x y dd directions (s, rest)
        rw [hstep] at this
        exact this
      have hc1 : cell s1.grid c.1 c.2 = 2 := by rw [hg]; exact hc
      have hstepf := foldl_marker2 m n id x y dd directions s rest c hc
      rw [hstep] at hstepf
      have hrec := ih s1 q1 c hc1
      exact ⟨hrec.1.trans hstepf.1, hrec.2.1.trans hstepf.2.1, hrec.2.2.trans hstepf.2.2⟩

theorem bfsHouse_marker2 (m n : Nat) (s : BfsState) (id : Nat) (h : Nat × Nat)
    (c : Nat × Nat) (hc : cell s.grid c.1 c.2 = 2) (hh : cell s.grid h.1 h.2 ≠ 2) :
    (bfsHouse m n (s, id) h).1.visited c = s.visited c ∧
    (bfsHouse m n (s, id) h).1.dist c = s.dist c ∧
    (bfsHouse m n (s, id) h).1.reach c = s.reach c := by
  have hne : c ≠ h := by
    intro he
    rw [he] at hc
    exact hh hc
  simp only [bfsHouse]
  have hloop := bfsLoop_marker2 m n id (4 * (m * n) + 2)
    { s with visited := fun cc => if cc = h then id else s.visited cc }
    [(h.1, h.2, 0)] c hc
  refine ⟨hloop.1.trans ?_, hloop.2.1, hloop.2.2⟩
  simp [if_neg hne]

/-- Claim C5 (amended): in the traversal engine a neighbour is enterable
iff it is in bounds and its marker is not exactly 2 (line 138 tests
`grid[nx][ny] != 2`); hence cells with marker 2 are never visited, and
never accumulate distance or reach, in any run whose starting houses are
not marker-2 cells.  Markers outside 0, 1 and 2 are passable. -/
theorem C5_obstacle_amended (g : Grid) (houses : List (Nat × Nat)) (m n : Nat)
    (hh : ∀ h ∈ houses, cell g h.1 h.2 ≠ 2) (c : Nat × Nat)
    (hc : cell g c.1 c.2 = 2) :
    (bfsRun g houses m n).visited c = 0 ∧ (bfsRun g houses m n).dist c = 0 ∧
      (bfsRun g houses m n).reach c = 0 := by
  rw [bfsRun]
  have hfold : ∀ (hs : List (Nat × Nat)) (sv : BfsState × Nat),
      cell sv.1.grid c.1 c.2 = 2 → (∀ h ∈ hs, cell sv.1.grid h.1 h.2 ≠ 2) →
      (hs.foldl (bfsHouse m n) sv).1.visited c = sv.1.visited c ∧
      (hs.foldl (bfsHouse m n) sv).1.dist c = sv.1.dist c ∧
      (hs.foldl (bfsHouse m n) sv).1.reach c = sv.1.reach c := by
    intro hs
    induction hs with
    | nil => exact fun sv _ _ => ⟨rfl, rfl, rfl⟩
    | cons h hs ih =>
      rintro ⟨s, id⟩ hcg hhg
      rw [List.foldl_cons]
      have hstep := bfsHouse_marker2 m n s id h c hcg
        (hhg h (List.mem_cons_self h hs))
      rcases hb : bfsHouse m n (s, id) h with ⟨s1, id1⟩
      rw [hb] at hstep
      have hg1 : s1.grid = s.grid := by
        have := bfsHouse_grid m n (s, id) h
        rw [hb] at this
        exact this
      have hrec := ih (s1, id1) (by rw [hg1]; exact hcg)
        (by intro hx hmem; rw [hg1]; exact hhg hx (List.mem_cons_of_mem h hmem))
      exact ⟨hrec.1.trans hstep.1, hrec.2.1.trans hstep.2.1, hrec.2.2.trans hstep.2.2⟩
  exact hfold houses _ hc hh

/-- Witness for the amended C5: on [[1, 2]] with its house at (0, 0), the
marker-2 cell (0, 1) is never visited and accumulates nothing. -/
theorem C5_obstacle_amended_witness :
    (bfsRun [[1, 2]] [(0, 0)] 1 2).visited (0, 1) = 0 ∧
      (bfsRun [[1, 2]] [(0, 0)] 1 2).dist (0, 1) = 0 ∧
      (bfsRun [[1, 2]] [(0, 0)] 1 2).reach (0, 1) = 0 :=
  C5_obstacle_amended [[1, 2]] [(0, 0)] 1 2 (by decide) (0, 1) (by decide)

theorem LoopInv_shift (g : Grid) (m n id : Nat) (h : Nat × Nat)
    (dist0 reach0 : Nat × Nat → Int) (vis0 : Nat × Nat → Nat)
    (s : BfsState) (q : List (Nat × Nat × Nat)) (D : Nat)
    (q2 : List (Nat × Nat × Nat)) (hh : inb m n h)
    (inv : LoopInv g m n id h dist0 reach0 vis0 s q D [] q2) :
    LoopInv g m n id h dist0 reach0 vis0 s q (D + 1) q2 [] := by
  have hD1 : ∀ c, inb m n c → mdist h c = D + 1 → s.visited c = id := by
    intro c hc hd
    by_contra hv
    rcases inv.frontier c hc hd hv with ⟨e, he, _⟩
    cases he
  refine ⟨inv.grid_eq, by rw [inv.qsplit]; simp, ?_, ?_, ?_, ?_, ?_,
    inv.vis_out, inv.vis_old, inv.dist_acc, inv.reach_acc⟩
  · exact fun e he => inv.q2_prop e he
  · intro e he
    cases he
  · intro c hc hd
    rcases Nat.lt_or_ge (mdist h c) (D + 1) with hlt | hge
    · exact inv.ball_vis c hc (by omega)
    · exact hD1 c hc (by omega)
  · intro c hc hv
    left
    rcases inv.vis_ball c hc hv with hle | ⟨e, he, hee⟩
    · omega
    · have := (inv.q2_prop e he).2.1
      rw [hee] at this
      omega
  · intro c hc hd hv
    rcases mdist_down m n h c hh hc (D + 1) hd with ⟨b, hb, hbd, hbc⟩
    have hbvis : s.visited b = id := hD1 b hb hbd
    rcases inv.vis_ball b hb hbvis with hle | ⟨e, he, hee⟩
    · omega
    · refine ⟨e, he, ?_⟩
      rw [hee]
      exact hbc

theorem LoopInv_final (g : Grid) (m n id : Nat) (h : Nat × Nat)
    (dist0 reach0 : Nat × Nat → Int) (vis0 : Nat × Nat → Nat)
    (s : BfsState) (q : List (Nat × Nat × Nat)) (D : Nat) (hh : inb m n h)
    (inv : LoopInv g m n id h dist0 reach0 vis0 s q D [] []) :
    RoundPost g m n id h dist0 reach0 vis0 s := by
  have hD1 : ∀ c, inb m n c → mdist h c ≠ D + 1 := by
    intro c hc hd
    by_cases hv : s.visited c = id
    · rcases inv.vis_ball c hc hv with hle | ⟨e, he, _⟩
      · omega
      · cases he
    · rcases inv.frontier c hc hd hv with ⟨e, he, _⟩
      cases he
  have hball : ∀ c, inb m n c → mdist h c ≤ D := by
    intro c hc
    by_contra hgt
    push_neg at hgt
    rcases mdist_exists_of_le m n h hh (mdist h c - (D + 1)) c hc (D + 1) (by omega)
      with ⟨b, hb, hbd⟩
    exact hD1 b hb hbd
  have hvis : ∀ c, inb m n c → s.visited c = id :=
    fun c hc => inv.ball_vis c hc (hball c hc)
  refine ⟨inv.grid_eq, hvis, ?_, inv.vis_out, ?_, ?_⟩
  · intro c
    by_cases hv : s.visited c = id
    · exact Or.inl hv
    · exact Or.inr (inv.vis_old c hv)
  · intro c
    rw [inv.dist_acc c]
    congr 1
    by_cases hc : inb m n c ∧ cell g c.1 c.2 = 0
    · rw [if_pos ⟨hc.1, hc.2, hvis c hc.1⟩, if_pos hc]
    · rw [if_neg fun hcon => hc ⟨hcon.1, hcon.2.1⟩, if_neg hc]
  · intro c
    rw [inv.reach_acc c]
    congr 1
    by_cases hc : inb m n c ∧ cell g c.1 c.2 = 0
    · rw [if_pos ⟨hc.1, hc.2, hvis c hc.1⟩, if_pos hc]
    · rw [if_neg fun hcon => hc ⟨hcon.1, hcon.2.1⟩, if_neg hc]

theorem LoopInv_pop (g : Grid) (m n id : Nat) (h : Nat × Nat)
    (dist0 reach0 : Nat × Nat → Int) (vis0 : Nat × Nat → Nat)
    (hful : ∀ c, inb m n c → cell g c.1 c.2 ≠ 2)
    (x y dd : Nat) (rest q1 q2 : List (Nat × Nat × Nat)) (D : Nat) (s : BfsState)
    (inv : LoopInv g m n id h dist0 reach0 vis0 s ((x, y, dd) :: rest) D
      ((x, y, dd) :: q1) q2) :
    ∃ A,
      LoopInv g m n id h dist0 reach0 vis0
        (directions.foldl (tryVisit m n id x y dd) (s, rest)).1
        (directions.foldl (tryVisit m n id x y dd) (s, rest)).2 D q1 (q2 ++ A) ∧
      4 * unvisitedCard m n id (directions.foldl (tryVisit m n id x y dd) (s, rest)).1
          + (directions.foldl (tryVisit m n id x y dd) (s, rest)).2.length + 1
        ≤ 4 * unvisitedCard m n id s + ((x, y, dd) :: rest).length := by
  have hhead := inv.q1_prop (x, y, dd) (List.mem_cons_self _ _)
  have hdD : dd = D := hhead.1
  have hxyD : mdist h (x, y) = D := hhead.2.1
  have hxy : inb m n (x, y) := hhead.2.2.1
  have hx : x < m := hxy.1
  have hy : y < n := hxy.2
  have hrest : rest = q1 ++ q2 := by
    have hq := inv.qsplit
    rw [List.cons_append] at hq
    exact (List.cons.injEq _ _ _ _ ▸ hq).2
  have hcellg : ∀ c : Nat × Nat, cell s.grid c.1 c.2 = cell g c.1 c.2 := by
    intro c
    rw [inv.grid_eq]
  set out := directions.foldl (tryVisit m n id x y dd) (s, rest) with hout
  have fout : FoldOut m n id dd s x y directions rest out :=
    foldTry_spec m n id dd x y directions (directions_pairwise m n x y) s rest
  have hNiff : ∀ c, Newly m n id s x y directions c ↔
      (inb m n c ∧ mdist (x, y) c = 1 ∧ s.visited c ≠ id) := by
    intro c
    unfold Newly
    constructor
    · rintro ⟨hex, hv, _⟩
      have hadj := (target_iff_adjacent m n x y hx hy c).1 hex
      exact ⟨hadj.1, hadj.2, hv⟩
    · rintro ⟨hinb, hadj, hv⟩
      refine ⟨(target_iff_adjacent m n x y hx hy c).2 ⟨hinb, hadj⟩, hv, ?_⟩
      rw [hcellg c]
      exact hful c hinb
  have hNinb : ∀ c, Newly m n id s x y directions c → inb m n c :=
    fun c hN => ((hNiff c).1 hN).1
  have hNvis : ∀ c, Newly m n id s x y directions c → s.visited c ≠ id :=
    fun c hN => ((hNiff c).1 hN).2.2
  have hNd : ∀ c, Newly m n id s x y directions c → mdist h c = D + 1 := by
    intro c hN
    rcases (hNiff c).1 hN with ⟨hinb, hadj, hv⟩
    have htri := mdist_triangle h (x, y) c
    have hgt : ¬ mdist h c ≤ D := fun hle => hv (inv.ball_vis c hinb hle)
    omega
  obtain ⟨A, hA1, hA2, hA3, hA4⟩ := fout.qapp
  refine ⟨A, ?_, ?_⟩
  · refine ⟨fout.grid_eq.trans inv.grid_eq, ?_, ?_, ?_, ?_, ?_, ?_, ?_, ?_, ?_, ?_⟩
    · rw [hA1, hrest, List.append_assoc]
    · intro e he
      have hold := inv.q1_prop e (List.mem_cons_of_mem _ he)
      refine ⟨hold.1, hold.2.1, hold.2.2.1, ?_⟩
      rw [fout.vis_old (qcell e) fun hN => hNvis _ hN hold.2.2.2]
      exact hold.2.2.2
    · intro e he
      rcases List.mem_append.1 he with he | he
      · have hold := inv.q2_prop e he
        refine ⟨hold.1, hold.2.1, hold.2.2.1, ?_⟩
        rw [fout.vis_old (qcell e) fun hN => hNvis _ hN hold.2.2.2]
        exact hold.2.2.2
      · have hAe := hA2 e he
        exact ⟨by rw [hAe.1, hdD], hNd _ hAe.2, hNinb _ hAe.2, fout.vis_new _ hAe.2⟩
    · intro c hc hd
      have hvs := inv.ball_vis c hc hd
      rw [fout.vis_old c fun hN => hNvis c hN hvs]
      exact hvs
    · intro c hc hv
      by_cases hN : Newly m n id s x y directions c
      · right
        obtain ⟨e, he, hee⟩ := hA3 c hN
        exact ⟨e, List.mem_append_right _ he, hee⟩
      · rw [fout.vis_old c hN] at hv
        rcases inv.vis_ball c hc hv with hle | ⟨e, he, hee⟩
        · exact Or.inl hle
        · exact Or.inr ⟨e, List.mem_append_left _ he, hee⟩
    · intro c hc hd hv
      by_cases hN : Newly m n id s x y directions c
      · exact absurd (fout.vis_new c hN) hv
      · rw [fout.vis_old c hN] at hv
        rcases inv.frontier c hc hd hv with ⟨e, he, hee⟩
        rcases List.mem_cons.1 he with rfl | he2
        · exact absurd ((hNiff c).2 ⟨hc, hee, hv⟩) hN
        · exact ⟨e, he2, hee⟩
    · intro c hc
      have hnN : ¬ Newly m n id s x y directions c := fun hN => hc (hNinb c hN)
      rw [fout.vis_old c hnN]
      exact inv.vis_out c hc
    · intro c hv
      by_cases hN : Newly m n id s x y directions c
      · exact absurd (fout.vis_new c hN) hv
      · rw [fout.vis_old c hN] at hv ⊢
        exact inv.vis_old c hv
    · intro c
      by_cases hN : Newly m n id s x y directions c
      · by_cases h0 : cell g c.1 c.2 = 0
        · have h0s : cell s.grid c.1 c.2 = 0 := by rw [hcellg]; exact h0
          rw [fout.dist_new c hN h0s]
          rw [inv.dist_acc c, if_neg fun hcon => hNvis c hN hcon.2.2]
          rw [if_pos ⟨hNinb c hN, h0, fout.vis_new c hN⟩]
          rw [hNd c hN, hdD]
          push_cast
          ring
        · have h0s : ¬ (Newly m n id s x y directions c ∧ cell s.grid c.1 c.2 = 0) := by
            rintro ⟨_, hcc⟩
            rw [hcellg] at hcc
            exact h0 hcc
          rw [fout.dist_old c h0s, inv.dist_acc c]
          rw [if_neg fun hcon => h0 hcon.2.1, if_neg fun hcon => h0 hcon.2.1]
      · rw [fout.dist_old c fun hcon => hN hcon.1, inv.dist_acc c,
          fout.vis_old c hN]
    · intro c
      by_cases hN : Newly m n id s x y directions c
      · by_cases h0 : cell g c.1 c.2 = 0
        · have h0s : cell s.grid c.1 c.2 = 0 := by rw [hcellg]; exact h0
          rw [fout.reach_new c hN h0s]
          rw [inv.reach_acc c, if_neg fun hcon => hNvis c hN hcon.2.2]
          rw [if_pos ⟨hNinb c hN, h0, fout.vis_new c hN⟩]
          ring
        · have h0s : ¬ (Newly m n id s x y directions c ∧ cell s.grid c.1 c.2 = 0) := by
            rintro ⟨_, hcc⟩
            rw [hcellg] at hcc
            exact h0 hcc
          rw [fout.reach_old c h0s, inv.reach_acc c]
          rw [if_neg fun hcon => h0 hcon.2.1, if_neg fun hcon => h0 hcon.2.1]
      · rw [fout.reach_old c fun hcon => hN hcon.1, inv.reach_acc c,
          fout.vis_old c hN]
  · have hsub : ((A.map qcell).toFinset : Finset (Nat × Nat)) ⊆
        ((Finset.range m) ×ˢ (Finset.range n)).filter fun c => s.visited c ≠ id := by
      intro c hc
      rw [List.mem_toFinset] at hc
      rcases List.mem_map.1 hc with ⟨e, he, rfl⟩
      have hN := (hA2 e he).2
      have hinb := hNinb _ hN
      rw [Finset.mem_filter, Finset.mem_product, Finset.mem_range, Finset.mem_range]
      exact ⟨⟨hinb.1, hinb.2⟩, hNvis _ hN⟩
    have hfilter : ((Finset.range m) ×ˢ (Finset.range n)).filter
        (fun c => out.1.visited c ≠ id)
        = (((Finset.range m) ×ˢ (Finset.range n)).filter fun c => s.visited c ≠ id)
          \ (A.map qcell).toFinset := by
      ext c
      rw [Finset.mem_sdiff, Finset.mem_filter, Finset.mem_filter, List.mem_toFinset]
      constructor
      · rintro ⟨hmem, hv⟩
        by_cases hN : Newly m n id s x y directions c
        · exact absurd (fout.vis_new c hN) hv
        · rw [fout.vis_old c hN] at hv
          refine ⟨⟨hmem, hv⟩, ?_⟩
          intro hcA
          rcases List.mem_map.1 hcA with ⟨e, he, hee⟩
          exact hN (hee ▸ (hA2 e he).2)
      · rintro ⟨⟨hmem, hv⟩, hnA⟩
        refine ⟨hmem, ?_⟩
        by_cases hN : Newly m n id s x y directions c
        · exact absurd (List.mem_map.2 ⟨_, (hA3 c hN).choose_spec.1, (hA3 c hN).choose_spec.2⟩) hnA
        · rw [fout.vis_old c hN]
          exact hv
    have hcard : unvisitedCard m n id out.1 = unvisitedCard m n id s - A.length := by
      rw [unvisitedCard, unvisitedCard, hfilter, Finset.card_sdiff hsub]
      congr 1
      rw [List.toFinset_card_of_nodup hA4, List.length_map]
    have hAle : A.length ≤ unvisitedCard m n id s := by
      have hle := Finset.card_le_card hsub
      rw [List.toFinset_card_of_nodup hA4, List.length_map] at hle
      exact hle
    have hqlen : out.2.length = rest.length + A.length := by
      rw [hA1, List.length_append]
    rw [hcard, hqlen]
    simp only [List.length_cons]
    omega

theorem bfsLoop_spec (g : Grid) (m n id : Nat) (h : Nat × Nat)
    (dist0 reach0 : Nat × Nat → Int) (vis0 : Nat × Nat → Nat)
    (hful : ∀ c, inb m n c → cell g c.1 c.2 ≠ 2) (hh : inb m n h) :
    ∀ (fuel : Nat) (s : BfsState) (q : List (Nat × Nat × Nat)) (D : Nat)
      (q1 q2 : List (Nat × Nat × Nat)),
      LoopInv g m n id h dist0 reach0 vis0 s q D q1 q2 →
      4 * unvisitedCard m n id s + q.length < fuel →
      RoundPost g m n id h dist0 reach0 vis0 (bfsLoop m n id fuel (s, q)) := by
  intro fuel
  induction fuel with
  | zero =>
    intro s q D q1 q2 _ hf
    omega
  | succ f ih =>
    intro s q D q1 q2 inv hf
    rcases q with _ | ⟨⟨x, y, dd⟩, rest⟩
    · have hq12 := List.append_eq_nil.1 inv.qsplit.symm
      obtain ⟨rfl, rfl⟩ := hq12
      exact LoopInv_final g m n id h dist0 reach0 vis0 s [] D hh inv
    · rcases q1 with _ | ⟨e1, q1t⟩
      · have hq2 : q2 = (x, y, dd) :: rest := by
          have hq := inv.qsplit
          rw [List.nil_append] at hq
          exact hq.symm
        have inv2 := LoopInv_shift g m n id h dist0 reach0 vis0 s
          ((x, y, dd) :: rest) D q2 hh inv
        rw [hq2] at inv2
        obtain ⟨A, hinv3, hmeas⟩ := LoopInv_pop g m n id h dist0 reach0 vis0 hful
          x y dd rest rest [] (D + 1) s inv2
        have hred : bfsLoop m n id (f + 1) (s, (x, y, dd) :: rest)
            = bfsLoop m n id f (directions.foldl (tryVisit m n id x y dd) (s, rest)) := rfl
        rw [hred]
        rcases hso : directions.foldl (tryVisit m n id x y dd) (s, rest) with ⟨s2, q2b⟩
        rw [hso] at hinv3 hmeas
        exact ih s2 q2b (D + 1) rest ([] ++ A) hinv3
          (by simp only [List.length_cons] at hmeas hf ⊢; omega)
      · have he1 : e1 = (x, y, dd) := by
          have hq := inv.qsplit
          rw [List.cons_append] at hq
          exact ((List.cons.injEq _ _ _ _ ▸ hq).1).symm
        subst he1
        obtain ⟨A, hinv3, hmeas⟩ := LoopInv_pop g m n id h dist0 reach0 vis0 hful
          x y dd rest q1t q2 D s inv
        have hred : bfsLoop m n id (f + 1) (s, (x, y, dd) :: rest)
            = bfsLoop m n id f (directions.foldl (tryVisit m n id x y dd) (s, rest)) := rfl
        rw [hred]
        rcases hso : directions.foldl (tryVisit m n id x y dd) (s, rest) with ⟨s2, q2b⟩
        rw [hso] at hinv3 hmeas
        exact ih s2 q2b D q1t (q2 ++ A) hinv3
          (by simp only [List.length_cons] at hmeas hf ⊢; omega)

theorem bfsHouse_spec (g : Grid) (m n : Nat)
    (hful : ∀ c, inb m n c → cell g c.1 c.2 ≠ 2)
    (s : BfsState) (id : Nat) (h : Nat × Nat)
    (hgrid : s.grid = g) (hh : inb m n h) (hcellh : cell g h.1 h.2 = 1)
    (hvis : ∀ c, s.visited c ≠ id) :
    (bfsHouse m n (s, id) h).2 = id + 1 ∧
      RoundPost g m n id h s.dist s.reach s.visited (bfsHouse m n (s, id) h).1 := by
  refine ⟨rfl, ?_⟩
  simp only [bfsHouse]
  set s0 : BfsState :=
    { s with visited := fun c => if c = h then id else s.visited c } with hs0
  have hinv : LoopInv g m n id h s.dist s.reach s.visited s0 [(h.1, h.2, 0)] 0
      [(h.1, h.2, 0)] [] := by
    refine ⟨hgrid, by simp, ?_, ?_, ?_, ?_, ?_, ?_, ?_, ?_, ?_⟩
    · intro e he
      rcases List.mem_cons.1 he with rfl | he2
      · refine ⟨rfl, ?_, ?_, ?_⟩
        · show mdist h (h.1, h.2) = 0
          rw [Prod.mk.eta]
          exact mdist_self h
        · exact hh
        · show s0.visited (h.1, h.2) = id
          rw [hs0]
          simp
      · cases he2
    · intro e he
      cases he
    · intro c hc hd
      have hch : c = h := ((mdist_eq_zero h c).1 (by omega)).symm
      rw [hch, hs0]
      simp
    · intro c hc hv
      by_cases hch : c = h
      · left
        rw [hch, mdist_self]
      · exfalso
        apply hvis c
        have hsc : s0.visited c = s.visited c := by
          rw [hs0]
          simp [if_neg hch]
        rw [← hsc]
        exact hv
    · intro c hc hd hv
      refine ⟨(h.1, h.2, 0), List.mem_cons_self _ _, ?_⟩
      show mdist (h.1, h.2) c = 1
      rw [Prod.mk.eta]
      exact hd
    · intro c hc
      have hch : c ≠ h := fun he => hc (he ▸ hh)
      show s0.visited c = s.visited c
      rw [hs0]
      simp [if_neg hch]
    · intro c hv
      show s0.visited c = s.visited c
      by_cases hch : c = h
      · exfalso
        apply hv
        rw [hch, hs0]
        simp
      · rw [hs0]
        simp [if_neg hch]
    · intro c
      have hcond : ¬ (inb m n c ∧ cell g c.1 c.2 = 0 ∧ s0.visited c = id) := by
        rintro ⟨hinb2, hc0, hvid⟩
        by_cases hch : c = h
        · rw [hch, hcellh] at hc0
          norm_num at hc0
        · apply hvis c
          have hsc : s0.visited c = s.visited c := by
            rw [hs0]
            simp [if_neg hch]
          rw [← hsc]
          exact hvid
      rw [if_neg hcond, add_zero]
    · intro c
      have hcond : ¬ (inb m n c ∧ cell g c.1 c.2 = 0 ∧ s0.visited c = id) := by
        rintro ⟨hinb2, hc0, hvid⟩
        by_cases hch : c = h
        · rw [hch, hcellh] at hc0
          norm_num at hc0
        · apply hvis c
          have hsc : s0.visited c = s.visited c := by
            rw [hs0]
            simp [if_neg hch]
          rw [← hsc]
          exact hvid
      rw [if_neg hcond, add_zero]
  have hU : unvisitedCard m n id s0 ≤ m * n := by
    rw [unvisitedCard]
    calc (((Finset.range m) ×ˢ (Finset.range n)).filter fun c => s0.visited c ≠ id).card
        ≤ ((Finset.range m) ×ˢ (Finset.range n)).card := Finset.card_filter_le _ _
      _ = m * n := by rw [Finset.card_product, Finset.card_range, Finset.card_range]
  exact bfsLoop_spec g m n id h s.dist s.reach s.visited hful hh (4 * (m * n) + 2)
    s0 [(h.1, h.2, 0)] 0 [(h.1, h.2, 0)] [] hinv
    (by simp only [List.length_singleton]; omega)

theorem bfsFold_spec (g : Grid) (m n : Nat)
    (hful : ∀ c, inb m n c → cell g c.1 c.2 ≠ 2) :
    ∀ (hs : List (Nat × Nat)) (s : BfsState) (id : Nat),
      s.grid = g → (∀ c, s.visited c < id) →
      (∀ h ∈ hs, inb m n h ∧ cell g h.1 h.2 = 1) →
      (hs.foldl (bfsHouse m n) (s, id)).2 = id + hs.length ∧
      (hs.foldl (bfsHouse m n) (s, id)).1.grid = g ∧
      (∀ c, (hs.foldl (bfsHouse m n) (s, id)).1.visited c < id + hs.length) ∧
      (∀ c, (hs.foldl (bfsHouse m n) (s, id)).1.dist c = s.dist c +
        (if inb m n c ∧ cell g c.1 c.2 = 0 then
          (hs.map fun hse => ((mdist hse c : Nat) : Int)).sum else 0)) ∧
      (∀ c, (hs.foldl (bfsHouse m n) (s, id)).1.reach c = s.reach c +
        (if inb m n c ∧ cell g c.1 c.2 = 0 then (hs.length : Int) else 0)) := by
  intro hs
  induction hs with
  | nil =>
    intro s id hgrid hvis hhs
    refine ⟨rfl, hgrid, ?_, ?_, ?_⟩
    · intro c
      simpa using hvis c
    · intro c
      simp
    · intro c
      simp
  | cons h hs ih =>
    intro s id hgrid hvis hhs
    have hhm := hhs h (List.mem_cons_self h hs)
    have hvne : ∀ c, s.visited c ≠ id := by
      intro c he
      have := hvis c
      omega
    obtain ⟨hid1, hpost⟩ := bfsHouse_spec g m n hful s id h hgrid hhm.1 hhm.2 hvne
    rw [List.foldl_cons]
    rcases hb : bfsHouse m n (s, id) h with ⟨s1, id1⟩
    rw [hb] at hid1 hpost
    have hid1e : id1 = id + 1 := hid1
    subst hid1e
    have hpost2 : RoundPost g m n id h s.dist s.reach s.visited s1 := hpost
    have hvis1 : ∀ c, s1.visited c < id + 1 := by
      intro c
      rcases hpost2.vis_or c with hv | hv
      · omega
      · rw [hv]
        have := hvis c
        omega
    have hrec := ih s1 (id + 1) hpost2.grid_eq hvis1
      fun hx hmem => hhs hx (List.mem_cons_of_mem h hmem)
    refine ⟨?_, hrec.2.1, ?_, ?_, ?_⟩
    · rw [hrec.1]
      simp only [List.length_cons]
      omega
    · intro c
      have := hrec.2.2.1 c
      simp only [List.length_cons]
      omega
    · intro c
      rw [hrec.2.2.2.1 c, hpost2.dist_eq c]
      by_cases hc : inb m n c ∧ cell g c.1 c.2 = 0
      · rw [if_pos hc, if_pos hc, if_pos hc, List.map_cons, List.sum_cons]
        ring
      · rw [if_neg hc, if_neg hc, if_neg hc]
        ring
    · intro c
      rw [hrec.2.2.2.2 c, hpost2.reach_eq c]
      by_cases hc : inb m n c ∧ cell g c.1 c.2 = 0
      · rw [if_pos hc, if_pos hc, if_pos hc]
        simp only [List.length_cons]
        push_cast
        ring
      · rw [if_neg hc, if_neg hc, if_neg hc]
        ring

theorem bfsRun_spec (g : Grid) (m n : Nat)
    (hful : ∀ c, inb m n c → cell g c.1 c.2 ≠ 2)
    (houses : List (Nat × Nat))
    (hhs : ∀ h ∈ houses, inb m n h ∧ cell g h.1 h.2 = 1) :
    (∀ c, (bfsRun g houses m n).dist c =
      (if inb m n c ∧ cell g c.1 c.2 = 0 then
        (houses.map fun hse => ((mdist hse c : Nat) : Int)).sum else 0)) ∧
    (∀ c, (bfsRun g houses m n).reach c =
      (if inb m n c ∧ cell g c.1 c.2 = 0 then (houses.length : Int) else 0)) := by
  rw [bfsRun]
  have hsp := bfsFold_spec g m n hful houses
    { grid := g, dist := fun _ => 0, reach := fun _ => 0, visited := fun _ => 0 } 1
    rfl (fun c => Nat.zero_lt_one) hhs
  exact ⟨fun c => (hsp.2.2.2.1 c).trans (zero_add _),
    fun c => (hsp.2.2.2.2 c).trans (zero_add _)⟩

/-- Claim C3: on every rectangular grid whose markers all lie in 0/1, with
at least one house and at least one empty cell, the separable engine and
the traversal engine, invoked with the extracted house list, the grid
dimensions, and totalHouses equal to the number of houses, return
identical results. -/
theorem C3_engines_agree (g : Grid) (n : Nat)
    (hrect : ∀ row ∈ g, row.length = n)
    (h01 : ∀ row ∈ g, ∀ v ∈ row, v = 0 ∨ v = 1)
    (hhouse : housesOf g g.length n ≠ [])
    (hempty : ∃ c ∈ cellList g.length n, cell g c.1 c.2 = 0) :
    fast_total_distance g (housesOf g g.length n) g.length n
        ((housesOf g g.length n).length : Int)
      = bfs_total_distance g (housesOf g g.length n) g.length n
        ((housesOf g g.length n).length : Int) := by
  set hs := housesOf g g.length n with hhs
  have hful : ∀ c, inb g.length n c → cell g c.1 c.2 ≠ 2 := by
    intro c hc hcell
    rcases cell01_of_rect g n hrect h01 c.1 c.2 hc.1 hc.2 with hcv | hcv <;>
      rw [hcv] at hcell <;> norm_num at hcell
  have hmem : ∀ h ∈ hs, inb g.length n h ∧ cell g h.1 h.2 = 1 := by
    intro h hm
    have hmm := (mem_housesOf g g.length n h).1 hm
    exact ⟨⟨hmm.1, hmm.2.1⟩, hmm.2.2⟩
  obtain ⟨hdist, hreach⟩ := bfsRun_spec g g.length n hful hs hmem
  simp only [fast_total_distance, bfs_total_distance]
  congr 1
  apply scanMin_congr
  · intro c hcmem
    have hinb : inb g.length n c := by
      have := (mem_cellList g.length n c).1 hcmem
      exact ⟨this.1, this.2⟩
    by_cases h0 : cell g c.1 c.2 = 0
    · have hb : (cell g c.1 c.2 == 0) = true := by
        rw [beq_iff_eq]
        exact h0
      have hr2 : ((bfsRun g hs g.length n).reach c == (hs.length : Int)) = true := by
        rw [beq_iff_eq, hreach c, if_pos ⟨hinb, h0⟩]
      rw [hb, hr2, Bool.true_and]
    · have hb : (cell g c.1 c.2 == 0) = false := by
        rw [beq_eq_false_iff_ne]
        exact h0
      rw [hb, Bool.false_and]
  · intro c hcmem hp
    have hinb : inb g.length n c := by
      have := (mem_cellList g.length n c).1 hcmem
      exact ⟨this.1, this.2⟩
    have h0 : cell g c.1 c.2 = 0 := by
      rw [beq_iff_eq] at hp
      exact hp
    rw [hdist c, if_pos ⟨hinb, h0⟩]
    rw [cost_pair_eq hs g.length n ((hs.length : Nat) : Int)
      (fun h hm => ⟨(hmem h hm).1.1, (hmem h hm).1.2⟩) rfl c.1 c.2]
    congr 1
    apply List.map_congr_left
    intro hse hm
    show |(hse.1 : Int) - (c.1 : Int)| + |(hse.2 : Int) - (c.2 : Int)|
        = ((mdist hse c : Nat) : Int)
    rw [mdist]
    push_cast
    rw [natDist_cast, natDist_cast]

/-- Witness for C3 on the concrete grid [[1, 0], [0, 0]]. -/
theorem C3_engines_agree_witness :
    fast_total_distance [[1, 0], [0, 0]]
        (housesOf [[1, 0], [0, 0]] ([[1, 0], [0, 0]] : Grid).length 2)
        ([[1, 0], [0, 0]] : Grid).length 2
        ((housesOf [[1, 0], [0, 0]] ([[1, 0], [0, 0]] : Grid).length 2).length : Int)
      = bfs_total_distance [[1, 0], [0, 0]]
        (housesOf [[1, 0], [0, 0]] ([[1, 0], [0, 0]] : Grid).length 2)
        ([[1, 0], [0, 0]] : Grid).length 2
        ((housesOf [[1, 0], [0, 0]] ([[1, 0], [0, 0]] : Grid).length 2).length : Int) :=
  C3_engines_agree [[1, 0], [0, 0]] 2 (by decide) (by decide) (by decide) (by decide)

end OMP
